import Mathlib

/-!
Verification of the snapmaker_moonraker bridge against its specification.

The development shallowly embeds the Go sources:
* the SACP wire codec (`sacp/sacp.go`: `Packet.Encode`, `Packet.Decode`,
  `headChksum`, `u16Chksum`),
* the discovery-record parser (`sacp/discover.go`: `ParsePrinter`),
* the GCode post-processor (`gcode/process.go`: `Process`, `scanMetadata`,
  `transformLines`, `remapParam`, `buildHeaderV1`, `buildHeaderV0`),
* the packet router's shutdown protocol (`printer/router.go`), and
* the state poller tick and the `ExecuteGCode` ack interpretation, which in
  the released revisions live in files not present in this source snapshot
  and are therefore modelled from the spec where marked.

Bytes are `Nat` values; byte/uint16/uint32 sempantics are made explicit with
`% 256`, `% 65536`, `% 4294967296` where Go's fixed-width types wrap.  Go's
run-time panics (out-of-range slice bounds, negative array indices) are made
explicit: functions that can panic return an `Option`/dedicated result type
whose `none`/`.crash` case marks the panic.
-/

set_option maxRecDepth 8000

namespace Sacp

/-- One section of `le16`: Go `binary.LittleEndian.Uint16([a, b])` for bytes
`a`, `b` (`uint16(a) | uint16(b)<<8`).  The `% 256` records that the inputs
are bytes. -/
def le16 (a b : Nat) : Nat :=
  a % 256 + 256 * (b % 256)

/-- One bit-step of Go `headChksum`'s inner loop (`sacp.go`): shift the CRC
register left by one (as a byte) and xor in the polynomial 7 when the CRC's
top bit differs from the incoming data bit. -/
def crcBit (crc bit : Nat) : Nat :=
  let c07 := crc / 128 % 2
  let c2 := crc * 2 % 256
  if c07 ≠ bit then c2 ^^^ 7 else c2

/-- One outer-loop step of Go `headChksum`: feed the 8 bits of byte `b`,
most significant first (`(data[i]&0xff) >> (7-j) & 0x01`). -/
def crcByte (crc b : Nat) : Nat :=
  (List.range 8).foldl (fun c j => crcBit c ((b % 256) / 2 ^ (7 - j) % 2)) crc

/-- Go `headChksum(data)` (`sacp.go`): bitwise CRC-8, polynomial 7, initial
value 0, over the given bytes. -/
def headChksum (data : List Nat) : Nat :=
  data.foldl crcByte 0

/-- The carry-folding loop of Go `u16Chksum`
(`for checkNum > 0xFFFF { checkNum = (checkNum>>16)&0xFFFF + checkNum&0xFFFF }`),
written with an explicit recursion budget so that it computes by kernel
reduction.  The folded value strictly decreases on every iteration, so a
budget equal to the starting value never runs out; `fold16_loop` below proves
the function satisfies exactly the Go loop's defining equation. -/
def fold16Go : Nat → Nat → Nat
  | 0, n => n
  | fuel + 1, n => if n > 65535 then fold16Go fuel (n / 65536 + n % 65536) else n

/-- Go `u16Chksum`'s carry fold, entered with a sufficient budget. -/
def fold16 (n : Nat) : Nat :=
  fold16Go n n

theorem fold16Go_small (fuel n : Nat) (h : n ≤ 65535) : fold16Go fuel n = n := by
  cases fuel with
  | zero => rfl
  | succ f => simp [fold16Go]; omega

theorem fold16Go_fuel_irrel (n f1 f2 : Nat) (h1 : n ≤ f1) (h2 : n ≤ f2) :
    fold16Go f1 n = fold16Go f2 n := by
  induction n using Nat.strong_induction_on generalizing f1 f2 with
  | _ n ih =>
    by_cases hbig : n ≤ 65535
    · rw [fold16Go_small f1 n hbig, fold16Go_small f2 n hbig]
    · push_neg at hbig
      obtain ⟨g1, rfl⟩ : ∃ g1, f1 = g1 + 1 := ⟨f1 - 1, by omega⟩
      obtain ⟨g2, rfl⟩ : ∃ g2, f2 = g2 + 1 := ⟨f2 - 1, by omega⟩
      simp only [fold16Go, if_pos hbig]
      have hlt : n / 65536 + n % 65536 < n := by omega
      exact ih _ hlt _ _ (by omega) (by omega)

/-- The budgeted fold satisfies the Go `while` loop's defining equation. -/
theorem fold16_loop (n : Nat) :
    fold16 n = if n > 65535 then fold16 (n / 65536 + n % 65536) else n := by
  by_cases hbig : n ≤ 65535
  · rw [if_neg (by omega)]
    exact fold16Go_small n n hbig
  · push_neg at hbig
    rw [if_pos hbig]
    unfold fold16
    obtain ⟨g, hg⟩ : ∃ g, n = g + 1 := ⟨n - 1, by omega⟩
    rw [hg]
    simp only [fold16Go, if_pos (by omega : g + 1 > 65535)]
    rw [← hg]
    exact fold16Go_fuel_irrel _ _ _ (by omega) (le_refl _)

/-- The pair-summing loop of Go `u16Chksum` over the first `length` bytes,
already specialised to a list: consecutive byte pairs are added as big-endian
uint16 values (`(data[i]&0xff)<<8 | data[i+1]&0xff`, rendered arithmetically
as `d i % 256 * 256 + d (i+1) % 256`), the accumulator is a `uint32`
(`checkNum &= 0xffffffff` and Go's wrapping addition are `% 4294967296`), and
a trailing odd byte is added as-is. -/
def chkLoop : List Nat → Nat → Nat
  | a :: b :: rest, acc => chkLoop rest ((acc + (a % 256 * 256 + b % 256)) % 4294967296)
  | [a], acc => (acc + a) % 4294967296
  | [], acc => acc

/-- Go `u16Chksum(packageData, length)` (`sacp.go`): sum the first `length`
bytes pairwise, fold carries into 16 bits, then one's-complement
(`^checkNum` on `uint32`, then `uint16(checkNum & 0xFFFF)`). -/
def u16Chksum (packageData : List Nat) (length : Nat) : Nat :=
  let s := fold16 (chkLoop (packageData.take length) 0)
  (4294967295 - s) % 65536

/-- Go `sacp.Packet`: receiver/sender/attribute/commandSet/commandID are
bytes, sequence is a uint16, data is a byte slice.  (Go's `Attribute` field
is named `attr` here because `attribute` is a Lean keyword.) -/
structure Packet where
  receiverID : Nat
  senderID : Nat
  attr : Nat
  sequence : Nat
  commandSet : Nat
  commandID : Nat
  data : List Nat
  deriving DecidableEq, Repr

/-- Go `Packet.Encode` (`sacp.go`): 2 magic bytes, uint16 LE declared length
`len(data)+6+2`, version 1, receiver, CRC8 over the first six bytes, sender,
attribute, uint16 LE sequence, command set, command id, data, and a trailing
uint16 LE checksum computed by `u16Chksum(result[7:], uint16(len(data))+6)`
(which covers `result[7:]` up to but excluding the two checksum slots). -/
def Packet.Encode (p : Packet) : List Nat :=
  let n := p.data.length
  let L := (n + 8) % 65536
  let head := [0xAA, 0x55, L % 256, L / 256, 0x01, p.receiverID % 256]
  let crc := headChksum head
  let body := [p.senderID % 256, p.attr % 256,
               p.sequence % 65536 % 256, p.sequence % 65536 / 256,
               p.commandSet % 256, p.commandID % 256] ++ p.data
  let ck := u16Chksum body ((n % 65536 + 6) % 65536)
  head ++ [crc] ++ body ++ [ck % 256, ck / 256]

/-- The four errors of Go `Packet.Decode` (`sacp.go`):
`ErrInvalidPacket`, `ErrInvalidVersion`, `ErrInvalidChksum`, `ErrInvalidSize`. -/
inductive SacpError where
  | invalidPacket
  | invalidVersion
  | invalidChksum
  | invalidSize
  deriving DecidableEq, Repr

/-- Outcome of Go `Packet.Decode`: a packet, one of the four errors, or a Go
run-time panic (`.crash`). -/
inductive DecodeResult where
  | ok (p : Packet)
  | err (e : SacpError)
  | crash
  deriving DecidableEq, Repr

/-- Go `Packet.Decode(data)` (`sacp.go`).  The 13-way cons pattern is Go's
`len(data) < 13` guard plus the named header bytes `data[0]`..`data[12]`;
`rest` is `data[13:]`.  The checks run in source order: magic, declared
length against `uint16(len(data)-7)`, version, header CRC against `data[6]`,
and `u16Chksum(data[7:], dataLen-2)` against the trailing little-endian
uint16 (`data[len(data)-2:]`).  The final field assignment
`p.Data = data[13 : len(data)-2]` panics in Go when `len(data) < 15`
(slice bounds `13 > len(data)-2`), which the `.crash` branch records. -/
def Packet.Decode (b : List Nat) : DecodeResult :=
  match b with
  | m0 :: m1 :: l0 :: l1 :: v :: recv :: crc :: sender :: attr :: s0 :: s1 :: cs :: cid :: rest =>
    -- Go's `dataLen` is `le16 l0 l1`; `data[7:]` is the 6+|rest| byte list below,
    -- whose last two entries sit at positions |rest|+4 and |rest|+5.
    if m0 ≠ 0xAA ∨ m1 ≠ 0x55 then .err .invalidPacket
    else if le16 l0 l1 ≠ (b.length - 7) % 65536 then .err .invalidSize
    else if v ≠ 0x01 then .err .invalidVersion
    else if headChksum [m0, m1, l0, l1, v, recv] ≠ crc then .err .invalidChksum
    else if le16 ((sender :: attr :: s0 :: s1 :: cs :: cid :: rest).getD (rest.length + 4) 0)
                 ((sender :: attr :: s0 :: s1 :: cs :: cid :: rest).getD (rest.length + 5) 0)
            ≠ u16Chksum (sender :: attr :: s0 :: s1 :: cs :: cid :: rest)
                ((le16 l0 l1 + 65534) % 65536)
      then .err .invalidChksum
    else if rest.length < 2 then .crash
    else .ok ⟨recv, sender, attr, le16 s0 s1, cs, cid, rest.take (rest.length - 2)⟩
  | _ => .err .invalidSize

/-- Well-formed packet per the spec's codec invariants: all byte fields in
range, sequence a uint16, data bytes in range, and the declared length
`|data| + 8` fits in the uint16 length field. -/
def WellFormed (p : Packet) : Prop :=
  p.receiverID < 256 ∧ p.senderID < 256 ∧ p.attr < 256 ∧
  p.sequence < 65536 ∧ p.commandSet < 256 ∧ p.commandID < 256 ∧
  (∀ x ∈ p.data, x < 256) ∧ p.data.length + 8 < 65536

instance (p : Packet) : Decidable (WellFormed p) := by
  unfold WellFormed; infer_instance

/-- A byte sequence: every element is in range. -/
def ByteSeq (b : List Nat) : Prop :=
  ∀ x ∈ b, x < 256

instance (b : List Nat) : Decidable (ByteSeq b) := by
  unfold ByteSeq; infer_instance

theorem u16Chksum_lt (l : List Nat) (len : Nat) : u16Chksum l len < 65536 :=
  Nat.mod_lt _ (by norm_num)

theorem le16_split (x : Nat) (hx : x < 65536) : le16 (x % 256) (x / 256) = x := by
  unfold le16; omega

theorem le16_lt (a b : Nat) : le16 a b < 65536 := by
  unfold le16; omega

theorem u16Chksum_take_eq (l extra : List Nat) (len : Nat) (h : len ≤ l.length) :
    u16Chksum (l ++ extra) len = u16Chksum l len := by
  unfold u16Chksum
  rw [List.take_append_eq_append_take]
  have h0 : len - l.length = 0 := by omega
  rw [h0]
  simp

/-- C1, first direction: decoding an encoded well-formed packet recovers the
packet. -/
theorem decode_encode (p : Packet) (h : WellFormed p) :
    Packet.Decode (Packet.Encode p) = .ok p := by
  obtain ⟨r, s, a, q, u, w, d⟩ := p
  obtain ⟨hr, hs, ha, hq, hu, hw, hd, hn⟩ := h
  have hr' : r % 256 = r := Nat.mod_eq_of_lt hr
  have hs' : s % 256 = s := Nat.mod_eq_of_lt hs
  have ha' : a % 256 = a := Nat.mod_eq_of_lt ha
  have hq' : q % 65536 = q := Nat.mod_eq_of_lt hq
  have hu' : u % 256 = u := Nat.mod_eq_of_lt hu
  have hw' : w % 256 = w := Nat.mod_eq_of_lt hw
  have hL : (d.length + 8) % 65536 = d.length + 8 := Nat.mod_eq_of_lt hn
  have hn6 : (d.length % 65536 + 6) % 65536 = d.length + 6 := by omega
  simp only [Packet.Encode, hr', hs', ha', hq', hu', hw', hL, hn6, List.cons_append,
    List.nil_append]
  set ck := u16Chksum (s :: a :: q % 256 :: q / 256 :: u :: w :: d) (d.length + 6) with hckdef
  have hcklt : ck < 65536 := u16Chksum_lt _ _
  simp only [Packet.Decode]
  rw [if_neg, if_neg, if_neg, if_neg, if_neg, if_neg]
  · rw [le16_split q hq, @List.take_left' _ d [ck % 256, ck / 256] _ (by simp)]
  · simp only [List.length_append, List.length_cons, List.length_nil, not_lt]
    omega
  · have e2 : s :: a :: q % 256 :: q / 256 :: u :: w :: (d ++ [ck % 256, ck / 256])
        = ((s :: a :: q % 256 :: q / 256 :: u :: w :: d) ++ [ck % 256, ck / 256]) := by simp
    rw [e2]
    rw [List.getD_append_right _ _ _ _
          (by simp only [List.length_append, List.length_cons, List.length_nil]; omega),
        List.getD_append_right _ _ _ _
          (by simp only [List.length_append, List.length_cons, List.length_nil]; omega)]
    have i1 : (d ++ [ck % 256, ck / 256]).length + 4
        - (s :: a :: q % 256 :: q / 256 :: u :: w :: d).length = 0 := by simp
    have i2 : (d ++ [ck % 256, ck / 256]).length + 5
        - (s :: a :: q % 256 :: q / 256 :: u :: w :: d).length = 1 := by simp
    simp only [List.length_append, List.length_cons, List.length_nil] at i1 i2 ⊢
    rw [i1, i2]
    simp only [List.getD_cons_zero, List.getD_cons_succ]
    rw [le16_split _ hcklt, le16_split _ hn]
    have harg : (d.length + 8 + 65534) % 65536 = d.length + 6 := by omega
    rw [harg]
    rw [u16Chksum_take_eq _ _ _ (by simp only [List.length_cons]; omega)]
    rw [← hckdef]
    simp
  · simp
  · simp
  · rw [le16_split _ hn]
    simp only [List.length_cons, List.length_append, List.length_nil, ne_eq,
      Decidable.not_not]
    omega
  · simp

theorem u16Chksum_take_prefix (pre x : List Nat) (k t : Nat) (h : t ≤ pre.length + k) :
    u16Chksum (pre ++ x.take k) t = u16Chksum (pre ++ x) t := by
  unfold u16Chksum
  rw [List.take_append_eq_append_take, List.take_append_eq_append_take, List.take_take]
  have hmin : (t - pre.length) ⊓ k = t - pre.length := by omega
  rw [hmin]

/-- The last two bytes of a list of length at least two, as read through
`getD`, reassemble the list from its `take`-prefix. -/
theorem take_getD_getD (l : List Nat) (h : 2 ≤ l.length) :
    l.take (l.length - 2) ++ [l.getD (l.length - 2) 0, l.getD (l.length - 1) 0] = l := by
  have h1 : l.length - 2 < l.length := by omega
  have h2 : l.length - 1 < l.length := by omega
  rw [List.getD_eq_getElem _ _ h1, List.getD_eq_getElem _ _ h2]
  have hd : l.drop (l.length - 2) = [l[l.length - 2], l[l.length - 1]] := by
    rw [List.drop_eq_getElem_cons h1]
    have e1 : l.length - 2 + 1 = l.length - 1 := by omega
    rw [e1, List.drop_eq_getElem_cons h2]
    have e2 : l.length - 1 + 1 = l.length := by omega
    rw [e2, List.drop_length]
  rw [← hd, List.take_append_drop]

/-- C1, second direction: encoding a packet accepted by `Decode` reproduces
the original byte sequence. -/
theorem encode_decode (b : List Nat) (p : Packet) (hb : ByteSeq b)
    (h : Packet.Decode b = .ok p) : Packet.Encode p = b := by
  unfold Packet.Decode at h
  split at h
  case _ m0 m1 l0 l1 v recv crc sender attr s0 s1 cs cid rest =>
    simp only [ByteSeq, List.mem_cons, forall_eq_or_imp] at hb
    obtain ⟨hm0, hm1, hl0, hl1, hv, hrecv, hcrc, hsender, hattr, hs0, hs1, hcs, hcid, hrest⟩ := hb
    split_ifs at h with h1 h2 h3 h4 h5 h6
    case _ =>
      simp only [ne_eq, not_or, not_not] at h1 h2 h3 h4 h5
      obtain ⟨hm0e, hm1e⟩ := h1
      subst hm0e hm1e h3
      rw [DecodeResult.ok.injEq] at h
      subst h
      simp only [List.length_cons, not_lt] at h2 h6
      -- the declared length field recovers `rest.length + 6`
      have hlen : le16 l0 l1 = (rest.length + 6) % 65536 := by
        omega
      have hl16 : le16 l0 l1 = l0 + 256 * l1 := by
        unfold le16; rw [Nat.mod_eq_of_lt hl0, Nat.mod_eq_of_lt hl1]
      -- the two stored checksum bytes
      have hx2 : rest.length - 2 < rest.length := by omega
      have hx1 : rest.length - 1 < rest.length := by omega
      have hxb : rest.getD (rest.length - 2) 0 < 256 := by
        rw [List.getD_eq_getElem _ _ hx2]
        exact hrest _ (List.getElem_mem hx2)
      have hyb : rest.getD (rest.length - 1) 0 < 256 := by
        rw [List.getD_eq_getElem _ _ hx1]
        exact hrest _ (List.getElem_mem hx1)
      -- rewrite the stored-checksum equation into `getD` form on `rest`
      have e7 : sender :: attr :: s0 :: s1 :: cs :: cid :: rest
          = [sender, attr, s0, s1, cs, cid] ++ rest := by simp
      rw [e7, List.getD_append_right _ _ _ _
            (by simp only [List.length_cons, List.length_nil]; omega),
          List.getD_append_right _ _ _ _
            (by simp only [List.length_cons, List.length_nil]; omega)] at h5
      have i1 : rest.length + 4 - ([sender, attr, s0, s1, cs, cid] : List Nat).length
          = rest.length - 2 := by simp
      have i2 : rest.length + 5 - ([sender, attr, s0, s1, cs, cid] : List Nat).length
          = rest.length - 1 := by simp
      rw [i1, i2] at h5
      -- the encoded data slice has length `rest.length - 2`
      have htl : (rest.take (rest.length - 2)).length = rest.length - 2 := by
        rw [List.length_take]; omega
      -- arithmetic facts about the header and checksum fields
      have harg1 : ((rest.length - 2) % 65536 + 6) % 65536 = (rest.length + 4) % 65536 := by
        omega
      have harg2 : (le16 l0 l1 + 65534) % 65536 = (rest.length + 4) % 65536 := by
        rw [hlen]; omega
      rw [harg2] at h5
      have hLl0 : (rest.length + 6) % 65536 % 256 = l0 := by
        have := hlen; rw [hl16] at this; omega
      have hLl1 : (rest.length + 6) % 65536 / 256 = l1 := by
        have := hlen; rw [hl16] at this; omega
      have hseq : le16 s0 s1 % 65536 = le16 s0 s1 := Nat.mod_eq_of_lt (le16_lt _ _)
      have hseq0 : le16 s0 s1 % 256 = s0 := by
        unfold le16; rw [Nat.mod_eq_of_lt hs0, Nat.mod_eq_of_lt hs1]; omega
      have hseq1 : le16 s0 s1 / 256 = s1 := by
        unfold le16; rw [Nat.mod_eq_of_lt hs0, Nat.mod_eq_of_lt hs1]; omega
      have hckval : u16Chksum ([sender, attr, s0, s1, cs, cid] ++ rest)
          ((rest.length + 4) % 65536)
          = le16 (rest.getD (rest.length - 2) 0) (rest.getD (rest.length - 1) 0) := h5.symm
      have hle16xy : le16 (rest.getD (rest.length - 2) 0) (rest.getD (rest.length - 1) 0)
          = rest.getD (rest.length - 2) 0 + 256 * rest.getD (rest.length - 1) 0 := by
        unfold le16; rw [Nat.mod_eq_of_lt hxb, Nat.mod_eq_of_lt hyb]
      -- unfold the encoder and rewrite every field into the decoded bytes
      unfold Packet.Encode
      have hsub : rest.length - 2 + 8 = rest.length + 6 := by omega
      simp only [htl, hsub, Nat.mod_eq_of_lt hrecv, Nat.mod_eq_of_lt hsender,
        Nat.mod_eq_of_lt hattr, Nat.mod_eq_of_lt hcs, Nat.mod_eq_of_lt hcid,
        hseq, hseq0, hseq1, hLl0, hLl1]
      have hcke : u16Chksum ([sender, attr, s0, s1, cs, cid] ++ rest.take (rest.length - 2))
          (((rest.length - 2) % 65536 + 6) % 65536)
          = u16Chksum ([sender, attr, s0, s1, cs, cid] ++ rest) ((rest.length + 4) % 65536) := by
        rw [harg1, u16Chksum_take_prefix _ _ _ _
              (by simp only [List.length_cons, List.length_nil]; omega)]
      have hck0 : (rest.getD (rest.length - 2) 0 + 256 * rest.getD (rest.length - 1) 0) % 256
          = rest.getD (rest.length - 2) 0 := by omega
      have hck1 : (rest.getD (rest.length - 2) 0 + 256 * rest.getD (rest.length - 1) 0) / 256
          = rest.getD (rest.length - 1) 0 := by omega
      simp only [hcke, hckval, hle16xy, hck0, hck1, h4]
      simp only [List.cons_append, List.nil_append, List.append_assoc]
      rw [take_getD_getD rest h6]
  case _ =>
    exact DecodeResult.noConfusion h


/-- C1: Codec round-trip.  For every well-formed packet `p` (byte fields in
range and `|data| + 8` within the uint16 length field),
`Decode (Encode p) = ok p`; and for every byte sequence `b` accepted by
`Decode`, `Encode (Decode b) = b`. -/
theorem sacp_codec_roundtrip :
    (∀ p : Packet, WellFormed p → Packet.Decode (Packet.Encode p) = .ok p) ∧
    (∀ (b : List Nat) (p : Packet), ByteSeq b → Packet.Decode b = .ok p →
      Packet.Encode p = b) :=
  ⟨decode_encode, encode_decode⟩

/-- Closed witness for `sacp_codec_roundtrip` at a concrete packet and its
concrete 17-byte frame. -/
theorem sacp_codec_roundtrip_witness :
    Packet.Decode (Packet.Encode ⟨1, 0, 0, 5, 1, 2, [3, 4]⟩) = .ok ⟨1, 0, 0, 5, 1, 2, [3, 4]⟩ ∧
    Packet.Encode ⟨1, 0, 0, 5, 1, 2, [3, 4]⟩
      = [170, 85, 10, 0, 1, 1, 83, 0, 0, 5, 0, 1, 2, 3, 4, 249, 246] :=
  ⟨sacp_codec_roundtrip.1 ⟨1, 0, 0, 5, 1, 2, [3, 4]⟩ (by decide),
   sacp_codec_roundtrip.2 [170, 85, 10, 0, 1, 1, 83, 0, 0, 5, 0, 1, 2, 3, 4, 249, 246]
     ⟨1, 0, 0, 5, 1, 2, [3, 4]⟩ (by decide) (by decide)⟩

/-- C3: Decode totality fails on the code.  A 13-byte frame whose declared
length (6), version, header CRC (188) and 16-bit checksum (0xFFFF over the
four zero payload bytes) are all self-consistent drives Go's
`p.Data = data[13 : len(data)-2]` into a slice-bounds panic (`13 > 11`)
instead of returning a packet or one of the four documented errors. -/
theorem decode_crash_on_13_byte_frame :
    Packet.Decode [0xAA, 0x55, 6, 0, 1, 0, 188, 0, 0, 0, 0, 0xFF, 0xFF] = .crash := by
  decide



/-! ### Discovery-record parsing (`sacp/discover.go`) -/

/-- Go `sacp.Printer` as filled in by `ParsePrinter` (`discover.go`); the
`Token` field is never set by the parser and is omitted.  Strings are
character lists (records are ASCII, so Go byte indices and character indices
coincide). -/
structure Printer where
  ip : List Char
  id : List Char
  model : List Char
  sacp : Bool
  deriving DecidableEq, Repr

/-- Outcome of Go `ParsePrinter`: a parsed record, the
"invalid discovery response" error, or a Go run-time panic (`.crash`). -/
inductive ParseResult where
  | ok (p : Printer)
  | err
  | crash
  deriving DecidableEq, Repr

/-- Go `strings.LastIndex(s, needle)` for a one-character needle, as an
optional index (Go returns -1 when absent; the caller's slice `s[:-1]` then
panics, which the model's caller marks `.crash`). -/
def lastIdx (s : List Char) (c : Char) : Option Nat :=
  (s.reverse.findIdx? (· = c)).map (fun i => s.length - 1 - i)

/-- Go `strings.Index(s, needle)` for a one-character needle. -/
def firstIdx (s : List Char) (c : Char) : Option Nat :=
  s.findIdx? (· = c)

/-- Go `ParsePrinter(resp)` (`discover.go`): reject when the record lacks
`"|model:"` or `"@"`; split on `'|'`; take ID and IP from the last `'@'` of
the segment before the first `'|'` (`parts[0][:LastIndex]` /
`parts[0][LastIndex+1:]`); take the model from after the first `':'` of the
second segment; `SACP` is whether the whole record contains `"SACP:1"`.
When `'@'` does not occur in `parts[0]`, Go's `parts[0][:-1]` panics
(`.crash`); when `':'` does not occur in `parts[1]`, Go's `parts[1][0:]` is
the whole segment (no panic). -/
def ParsePrinter (resp : List Char) : ParseResult :=
  if ¬ ("|model:".toList <:+: resp) ∨ ¬ (['@'] <:+: resp) then .err
  else
    match resp.splitOn '|' with
    | p0 :: prest =>
      match lastIdx p0 '@' with
      | none => .crash
      | some i =>
        match prest with
        | p1 :: _ =>
          .ok ⟨p0.drop (i + 1), p0.take i,
               (match firstIdx p1 ':' with
                | some j => p1.drop (j + 1)
                | none => p1),
               ("SACP:1".toList <:+: resp)⟩
        | [] => .crash
    | [] => .crash

/-- C10: Discovery parsing is not panic-free.  The record `"|model:a@b"`
contains both `"|model:"` and `"@"`, so it passes the rejection check, but
its segment before the first `'|'` is empty, `strings.LastIndex` returns -1,
and Go panics on the slice `parts[0][:-1]` instead of skipping the record. -/
theorem parsePrinter_crash_on_crafted_record :
    ParsePrinter ("|model:a@b".toList) = .crash := by
  decide


/-! ### Bit-flip sensitivity of the two checksums (C2 machinery) -/

theorem xor_shiftRight (x y n : Nat) : (x ^^^ y) >>> n = x >>> n ^^^ y >>> n := by
  apply Nat.eq_of_testBit_eq
  intro i
  simp [Nat.testBit_shiftRight, Nat.testBit_xor]

theorem xor_div_pow (x y n : Nat) : (x ^^^ y) / 2 ^ n = x / 2 ^ n ^^^ y / 2 ^ n := by
  have h := xor_shiftRight x y n
  simpa [Nat.shiftRight_eq_div_pow] using h

theorem xor_mod_two_pow (x y n : Nat) : (x ^^^ y) % 2 ^ n = x % 2 ^ n ^^^ y % 2 ^ n := by
  apply Nat.eq_of_testBit_eq
  intro i
  simp [Nat.testBit_mod_two_pow, Nat.testBit_xor, Bool.and_xor_distrib_left]

theorem xor_mod256 (x y : Nat) : (x ^^^ y) % 256 = x % 256 ^^^ y % 256 := by
  have h := xor_mod_two_pow x y 8
  norm_num at h
  exact h

theorem xor_mod2 (x y : Nat) : (x ^^^ y) % 2 = x % 2 ^^^ y % 2 := by
  have h := xor_mod_two_pow x y 1
  rw [pow_one] at h
  exact h

theorem xor_mul2 (x y : Nat) : (x ^^^ y) * 2 = x * 2 ^^^ y * 2 := by
  have e : ∀ z : Nat, z * 2 = z <<< 1 := fun z => by
    simp [Nat.shiftLeft_eq]
  rw [e, e, e]
  apply Nat.eq_of_testBit_eq
  intro i
  simp [Nat.testBit_shiftLeft, Nat.testBit_xor, Bool.and_xor_distrib_left]

theorem xor_swap4 (a b c d : Nat) : (a ^^^ b) ^^^ (c ^^^ d) = (a ^^^ c) ^^^ (b ^^^ d) := by
  apply Nat.eq_of_testBit_eq
  intro i
  simp only [Nat.testBit_xor]
  cases a.testBit i <;> cases b.testBit i <;> cases c.testBit i <;> cases d.testBit i <;> rfl

theorem xor_cancel_right (a b c : Nat) : (a ^^^ c) ^^^ (b ^^^ c) = a ^^^ b := by
  apply Nat.eq_of_testBit_eq
  intro i
  simp only [Nat.testBit_xor]
  cases a.testBit i <;> cases b.testBit i <;> cases c.testBit i <;> rfl

theorem xor_rotate (a b c : Nat) : (a ^^^ b) ^^^ c = (a ^^^ c) ^^^ b := by
  apply Nat.eq_of_testBit_eq
  intro i
  simp only [Nat.testBit_xor]
  cases a.testBit i <;> cases b.testBit i <;> cases c.testBit i <;> rfl

theorem xor_ne_of_ne_zero (x e : Nat) (he : e ≠ 0) : x ^^^ e ≠ x := by
  intro hcon
  have h2 := congrArg (fun z => x ^^^ z) hcon.symm
  simp only at h2
  rw [← Nat.xor_assoc, Nat.xor_self, Nat.zero_xor] at h2
  exact he h2.symm

/-- Closed form of `crcBit` for a 0/1 data bit: shift, then xor the
polynomial exactly when the top CRC bit and the data bit differ. -/
theorem crcBit_eq (c bit : Nat) (hb : bit < 2) :
    crcBit c bit = (c * 2 % 256) ^^^ 7 * (c / 128 % 2 ^^^ bit) := by
  unfold crcBit
  have ht : c / 128 % 2 = 0 ∨ c / 128 % 2 = 1 := by omega
  rcases (by omega : bit = 0 ∨ bit = 1) with rfl | rfl <;>
    rcases ht with ht | ht <;>
    simp [ht, Nat.xor_zero]

/-- `crcBit` is GF(2)-linear jointly in the CRC state and the data bit. -/
theorem crcBit_linear (x y b1 b2 : Nat) (h1 : b1 < 2) (h2 : b2 < 2) :
    crcBit (x ^^^ y) (b1 ^^^ b2) = crcBit x b1 ^^^ crcBit y b2 := by
  have hxy : b1 ^^^ b2 < 2 := by
    rcases (by omega : b1 = 0 ∨ b1 = 1) with rfl | rfl <;>
      rcases (by omega : b2 = 0 ∨ b2 = 1) with rfl | rfl <;> decide
  rw [crcBit_eq _ _ hxy, crcBit_eq _ _ h1, crcBit_eq _ _ h2]
  have htop : (x ^^^ y) / 128 % 2 = x / 128 % 2 ^^^ y / 128 % 2 := by
    have h128 : (128 : Nat) = 2 ^ 7 := by norm_num
    rw [h128, xor_div_pow, xor_mod2]
  have hsh : (x ^^^ y) * 2 % 256 = x * 2 % 256 ^^^ y * 2 % 256 := by
    rw [xor_mul2, xor_mod256]
  rw [htop, hsh]
  rw [xor_swap4 (x / 128 % 2) (y / 128 % 2) b1 b2]
  have ha : x / 128 % 2 ^^^ b1 = 0 ∨ x / 128 % 2 ^^^ b1 = 1 := by
    have hx : x / 128 % 2 < 2 := by omega
    rcases (by omega : x / 128 % 2 = 0 ∨ x / 128 % 2 = 1) with hh | hh <;>
      rcases (by omega : b1 = 0 ∨ b1 = 1) with rfl | rfl <;> simp [hh]
  have hb : y / 128 % 2 ^^^ b2 = 0 ∨ y / 128 % 2 ^^^ b2 = 1 := by
    rcases (by omega : y / 128 % 2 = 0 ∨ y / 128 % 2 = 1) with hh | hh <;>
      rcases (by omega : b2 = 0 ∨ b2 = 1) with rfl | rfl <;> simp [hh]
  rcases ha with ha | ha <;> rcases hb with hb | hb <;> rw [ha, hb]
  · simp [Nat.xor_zero]
  · simp only [Nat.zero_xor, Nat.mul_zero, Nat.mul_one, Nat.xor_zero]
    rw [Nat.xor_assoc]
  · simp only [Nat.xor_zero, Nat.mul_zero, Nat.mul_one]
    rw [xor_rotate]
  · have h11 : (1 : Nat) ^^^ 1 = 0 := rfl
    rw [h11]
    simp only [Nat.mul_zero, Nat.mul_one, Nat.xor_zero]
    exact (xor_cancel_right _ _ _).symm

/-- The 8-bit fold of `crcByte` is GF(2)-linear in the state and the byte. -/
theorem crcFold_linear (ks : List Nat) (x y b1 b2 : Nat) :
    ks.foldl (fun c j => crcBit c (((b1 ^^^ b2) % 256) / 2 ^ (7 - j) % 2)) (x ^^^ y)
      = ks.foldl (fun c j => crcBit c ((b1 % 256) / 2 ^ (7 - j) % 2)) x ^^^
        ks.foldl (fun c j => crcBit c ((b2 % 256) / 2 ^ (7 - j) % 2)) y := by
  induction ks generalizing x y with
  | nil => rfl
  | cons k ks ih =>
    simp only [List.foldl_cons]
    have hbit : ((b1 ^^^ b2) % 256) / 2 ^ (7 - k) % 2
        = (b1 % 256) / 2 ^ (7 - k) % 2 ^^^ (b2 % 256) / 2 ^ (7 - k) % 2 := by
      rw [xor_mod256, xor_div_pow, xor_mod2]
    rw [hbit, crcBit_linear _ _ _ _ (by omega) (by omega)]
    exact ih _ _

/-- `crcByte` is GF(2)-linear jointly in the CRC state and the data byte. -/
theorem crcByte_linear (x y b1 b2 : Nat) :
    crcByte (x ^^^ y) (b1 ^^^ b2) = crcByte x b1 ^^^ crcByte y b2 := by
  unfold crcByte
  exact crcFold_linear (List.range 8) x y b1 b2

/-- The CRC of a single one-bit byte is nonzero (polynomial 7 detects every
single-bit error in a byte). -/
theorem crcByte_zero_pow_ne (j : Nat) (hj : j < 8) : crcByte 0 (1 <<< j) ≠ 0 := by
  interval_cases j <;> decide

/-- Flipping any single bit of a byte changes `crcByte` for every state. -/
theorem crcByte_flip_ne (c r j : Nat) (hj : j < 8) :
    crcByte c (r ^^^ (1 <<< j)) ≠ crcByte c r := by
  have h := crcByte_linear c 0 r (1 <<< j)
  rw [Nat.xor_zero] at h
  rw [h]
  exact xor_ne_of_ne_zero _ _ (crcByte_zero_pow_ne j hj)

theorem crcBit_lt (c bit : Nat) : crcBit c bit < 256 := by
  simp only [crcBit]
  split
  · have h2 : c * 2 % 256 < 256 := Nat.mod_lt _ (by norm_num)
    calc c * 2 % 256 ^^^ 7 < 2 ^ 8 := Nat.xor_lt_two_pow (by omega) (by norm_num)
      _ = 256 := by norm_num
  · exact Nat.mod_lt _ (by norm_num)

theorem crcByte_lt (c b : Nat) : crcByte c b < 256 := by
  unfold crcByte
  show (List.foldl _ c [0, 1, 2, 3, 4, 5, 6, 7]) < 256
  simp only [List.foldl_cons, List.foldl_nil]
  exact crcBit_lt _ _

theorem headChksum_snoc (l : List Nat) (x : Nat) :
    headChksum (l ++ [x]) = crcByte (headChksum l) x := by
  simp [headChksum, List.foldl_append]

/-- A byte sequence with bit `j` of byte `i` flipped. -/
def flipBit (l : List Nat) (i j : Nat) : List Nat :=
  l.set i (l.getD i 0 ^^^ (1 <<< j))

/-- The pair sum of `u16Chksum` without the uint32 mask; `chkLoop` agrees
with it whenever the total stays below 2^32 (`chkLoop_eq_pairSum`). -/
def pairSum : List Nat → Nat
  | a :: b :: rest => a % 256 * 256 + b % 256 + pairSum rest
  | [a] => a
  | [] => 0

theorem chkLoop_eq_pairSum (l : List Nat) (acc : Nat)
    (h : acc + pairSum l < 4294967296) : chkLoop l acc = acc + pairSum l := by
  induction l using pairSum.induct generalizing acc with
  | case1 a b rest ih =>
    simp only [chkLoop, pairSum] at h ⊢
    rw [Nat.mod_eq_of_lt (by omega)]
    rw [ih _ (by omega)]
    omega
  | case2 a =>
    simp only [chkLoop, pairSum] at h ⊢
    exact Nat.mod_eq_of_lt (by omega)
  | case3 =>
    simp only [chkLoop, pairSum]
    omega

theorem pairSum_le (l : List Nat) (hb : ∀ x ∈ l, x < 256) :
    pairSum l ≤ 65535 * l.length := by
  induction l using pairSum.induct with
  | case1 a b rest ih =>
    have ha : a ∈ a :: b :: rest := by simp
    have hrest : ∀ x ∈ rest, x < 256 := fun x hx => hb x (by simp [hx])
    have h1 := ih hrest
    have h2 : a % 256 < 256 := Nat.mod_lt _ (by norm_num)
    have h3 : b % 256 < 256 := Nat.mod_lt _ (by norm_num)
    simp only [pairSum, List.length_cons]
    omega
  | case2 a =>
    have := hb a (by simp)
    simp only [pairSum, List.length_cons, List.length_nil]
    omega
  | case3 => simp [pairSum]

theorem shiftLeft_one_lt (j : Nat) (hj : j < 8) : 1 <<< j < 256 := by
  rw [Nat.one_shiftLeft]
  calc 2 ^ j ≤ 2 ^ 7 := Nat.pow_le_pow_right (by norm_num) (by omega)
    _ < 256 := by norm_num

theorem shiftLeft_one_ne_zero (j : Nat) : 1 <<< j ≠ 0 := by
  rw [Nat.one_shiftLeft]
  exact pow_ne_zero j (by norm_num)

theorem shiftLeft_one_pos (j : Nat) : 0 < 1 <<< j := by
  rw [Nat.one_shiftLeft]
  exact Nat.pos_pow_of_pos j (by norm_num)

/-- Flipping one bit of a byte adds or subtracts exactly that power of two. -/
theorem byte_flip_pm : ∀ a < 256, ∀ j < 8,
    a ^^^ (1 <<< j) = a + 1 <<< j ∨ a = (a ^^^ (1 <<< j)) + 1 <<< j := by
  decide

/-- Flipping one bit of one byte moves `pairSum` by a power of two below 2^16. -/
theorem pairSum_flip (l : List Nat) (q j : Nat) (hb : ∀ x ∈ l, x < 256)
    (hq : q < l.length) (hj : j < 8) :
    ∃ k, k < 16 ∧ (pairSum (flipBit l q j) = pairSum l + 2 ^ k ∨
                   pairSum l = pairSum (flipBit l q j) + 2 ^ k) := by
  induction l using pairSum.induct generalizing q with
  | case1 a b rest ih =>
    have ha : a < 256 := hb a (by simp)
    have hbb : b < 256 := hb b (by simp)
    have hrest : ∀ x ∈ rest, x < 256 := fun x hx => hb x (by simp [hx])
    match q with
    | 0 =>
      have hfa : a ^^^ (1 <<< j) < 256 := by
        calc a ^^^ 1 <<< j < 2 ^ 8 :=
          Nat.xor_lt_two_pow (by omega) (by have := shiftLeft_one_lt j hj; omega)
          _ = 256 := by norm_num
      have he : flipBit (a :: b :: rest) 0 j = (a ^^^ (1 <<< j)) :: b :: rest := rfl
      rw [he]
      have h2 : 2 ^ (j + 8) = 1 <<< j * 256 := by
        rw [Nat.one_shiftLeft, pow_add]; norm_num
      refine ⟨j + 8, by omega, ?_⟩
      simp only [pairSum, Nat.mod_eq_of_lt ha, Nat.mod_eq_of_lt hfa]
      rcases byte_flip_pm a ha j hj with hcase | hcase
      · left; rw [hcase, h2]; ring
      · right
        rw [h2]
        have := congrArg (fun z => z * 256) hcase
        simp only at this
        omega
    | 1 =>
      have hfb : b ^^^ (1 <<< j) < 256 := by
        calc b ^^^ 1 <<< j < 2 ^ 8 :=
          Nat.xor_lt_two_pow (by omega) (by have := shiftLeft_one_lt j hj; omega)
          _ = 256 := by norm_num
      have he : flipBit (a :: b :: rest) 1 j = a :: (b ^^^ (1 <<< j)) :: rest := rfl
      rw [he]
      refine ⟨j, by omega, ?_⟩
      have h2 : 2 ^ j = 1 <<< j := (Nat.one_shiftLeft j).symm
      simp only [pairSum, Nat.mod_eq_of_lt hbb, Nat.mod_eq_of_lt hfb, h2]
      rcases byte_flip_pm b hbb j hj with hcase | hcase
      · left; omega
      · right; omega
    | (q2 + 2) =>
      have hq2 : q2 < rest.length := by simp at hq; omega
      have he : flipBit (a :: b :: rest) (q2 + 2) j = a :: b :: flipBit rest q2 j := rfl
      rw [he]
      obtain ⟨k, hk, hcase⟩ := ih q2 hrest hq2
      refine ⟨k, hk, ?_⟩
      simp only [pairSum]
      rcases hcase with hcase | hcase
      · left; omega
      · right; omega
  | case2 a =>
    have ha : a < 256 := hb a (by simp)
    have hq0 : q = 0 := by simp at hq; omega
    subst hq0
    have he : flipBit [a] 0 j = [a ^^^ (1 <<< j)] := rfl
    rw [he]
    refine ⟨j, by omega, ?_⟩
    have h2 : 2 ^ j = 1 <<< j := (Nat.one_shiftLeft j).symm
    simp only [pairSum, h2]
    rcases byte_flip_pm a ha j hj with hcase | hcase
    · left; omega
    · right; omega
  | case3 => simp at hq

/-- The 16-bit fold keeps the value mod 65535 (it is a repeated cast-out of
65536 = 65535 + 1). -/
theorem fold16_mod (n : Nat) : fold16 n % 65535 = n % 65535 := by
  induction n using Nat.strong_induction_on with
  | _ n ih =>
    rw [fold16_loop n]
    split
    · next hbig =>
      rw [ih _ (by omega)]
      omega
    · rfl

theorem fold16_le (n : Nat) : fold16 n ≤ 65535 := by
  induction n using Nat.strong_induction_on with
  | _ n ih =>
    rw [fold16_loop n]
    split
    · next hbig => exact ih _ (by omega)
    · omega

theorem u16Chksum_eq_fold (l : List Nat) (len : Nat) :
    u16Chksum l len = 65535 - fold16 (chkLoop (l.take len) 0) := by
  simp only [u16Chksum]
  have h := fold16_le (chkLoop (l.take len) 0)
  omega

theorem mem_flipBit_lt (l : List Nat) (q j : Nat) (hb : ∀ x ∈ l, x < 256)
    (hq : q < l.length) (hj : j < 8) : ∀ x ∈ flipBit l q j, x < 256 := by
  intro x hx
  unfold flipBit at hx
  rcases List.mem_or_eq_of_mem_set hx with hmem | heq
  · exact hb x hmem
  · subst heq
    have hg : l.getD q 0 < 256 := by
      rw [List.getD_eq_getElem _ _ hq]
      exact hb _ (List.getElem_mem hq)
    calc l.getD q 0 ^^^ 1 <<< j < 2 ^ 8 :=
      Nat.xor_lt_two_pow (by omega) (by have := shiftLeft_one_lt j hj; omega)
      _ = 256 := by norm_num

/-- Flipping any single bit of a byte list of bounded length changes the
ones-complement checksum computed over the whole list. -/
theorem u16Chksum_flip_ne (B : List Nat) (q j : Nat) (hb : ∀ x ∈ B, x < 256)
    (hq : q < B.length) (hj : j < 8) (hlen : B.length ≤ 65535) :
    u16Chksum (flipBit B q j) B.length ≠ u16Chksum B B.length := by
  rw [u16Chksum_eq_fold, u16Chksum_eq_fold]
  have hlenf : (flipBit B q j).length = B.length := by
    unfold flipBit; exact List.length_set _ _ _
  rw [List.take_of_length_le (le_of_eq hlenf), List.take_of_length_le (le_refl _)]
  have hbf := mem_flipBit_lt B q j hb hq hj
  have hs1 : pairSum B ≤ 65535 * B.length := pairSum_le B hb
  have hs2 : pairSum (flipBit B q j) ≤ 65535 * (flipBit B q j).length :=
    pairSum_le _ hbf
  rw [hlenf] at hs2
  have hbig : 65535 * B.length < 4294967296 := by
    calc 65535 * B.length ≤ 65535 * 65535 := Nat.mul_le_mul_left _ hlen
      _ < 4294967296 := by norm_num
  rw [chkLoop_eq_pairSum _ 0 (by omega), chkLoop_eq_pairSum _ 0 (by omega)]
  simp only [Nat.zero_add]
  obtain ⟨k, hk, hcase⟩ := pairSum_flip B q j hb hq hj
  have hkpos : 0 < 2 ^ k := Nat.pos_pow_of_pos k (by norm_num)
  have hkle : 2 ^ k ≤ 32768 := by
    calc 2 ^ k ≤ 2 ^ 15 := Nat.pow_le_pow_right (by norm_num) (by omega)
      _ = 32768 := by norm_num
  have hf1 := fold16_le (pairSum (flipBit B q j))
  have hf2 := fold16_le (pairSum B)
  have hm1 := fold16_mod (pairSum (flipBit B q j))
  have hm2 := fold16_mod (pairSum B)
  intro hcon
  have hfe : fold16 (pairSum (flipBit B q j)) = fold16 (pairSum B) := by omega
  rw [hfe] at hm1
  rcases hcase with hcase | hcase <;> omega

theorem flipBit_append_left (xs ys : List Nat) (i j : Nat) (h : i < xs.length) :
    flipBit (xs ++ ys) i j = flipBit xs i j ++ ys := by
  unfold flipBit
  rw [List.getD_append _ _ _ _ h, List.set_append_left _ _ h]

theorem flipBit_append_right (xs ys : List Nat) (i j : Nat) (h : xs.length ≤ i) :
    flipBit (xs ++ ys) i j = xs ++ flipBit ys (i - xs.length) j := by
  unfold flipBit
  rw [List.getD_append_right _ _ _ _ h, List.set_append_right _ _ h]

theorem cons6_decomp (l : List Nat) (h : 6 ≤ l.length) :
    l = l.getD 0 0 :: l.getD 1 0 :: l.getD 2 0 :: l.getD 3 0 :: l.getD 4 0 ::
        l.getD 5 0 :: l.drop 6 := by
  rcases l with _ | ⟨x0, l⟩
  · simp only [List.length_nil] at h; omega
  rcases l with _ | ⟨x1, l⟩
  · simp only [List.length_cons, List.length_nil] at h; omega
  rcases l with _ | ⟨x2, l⟩
  · simp only [List.length_cons, List.length_nil] at h; omega
  rcases l with _ | ⟨x3, l⟩
  · simp only [List.length_cons, List.length_nil] at h; omega
  rcases l with _ | ⟨x4, l⟩
  · simp only [List.length_cons, List.length_nil] at h; omega
  rcases l with _ | ⟨x5, l⟩
  · simp only [List.length_cons, List.length_nil] at h; omega
  rfl

/-- `Decode` rejects with the checksum error any frame with good magic,
length and version whose stored header CRC disagrees with the recomputed
one. -/
theorem decode_headcrc_fail (l0 l1 rv crcv a1 a2 a3 a4 a5 a6 : Nat) (t : List Nat)
    (hlen : le16 l0 l1 = (t.length + 6) % 65536)
    (hcrc : headChksum [0xAA, 0x55, l0, l1, 0x01, rv] ≠ crcv) :
    Packet.Decode (0xAA :: 0x55 :: l0 :: l1 :: 0x01 :: rv :: crcv ::
      a1 :: a2 :: a3 :: a4 :: a5 :: a6 :: t) = .err .invalidChksum := by
  simp only [Packet.Decode]
  rw [if_neg, if_neg, if_neg, if_pos hcrc]
  · simp
  · simp only [List.length_cons, ne_eq, Decidable.not_not]
    rw [hlen]
    omega
  · simp

/-- `Decode` rejects with the checksum error any frame with good magic,
length, version and header CRC whose stored payload checksum disagrees
with the recomputed one. -/
theorem decode_paychk_fail (l0 l1 rv crcv a1 a2 a3 a4 a5 a6 : Nat) (t : List Nat)
    (hlen : le16 l0 l1 = (t.length + 6) % 65536)
    (hcrc : headChksum [0xAA, 0x55, l0, l1, 0x01, rv] = crcv)
    (hpay : le16 ((a1 :: a2 :: a3 :: a4 :: a5 :: a6 :: t).getD (t.length + 4) 0)
                 ((a1 :: a2 :: a3 :: a4 :: a5 :: a6 :: t).getD (t.length + 5) 0)
            ≠ u16Chksum (a1 :: a2 :: a3 :: a4 :: a5 :: a6 :: t)
                ((le16 l0 l1 + 65534) % 65536)) :
    Packet.Decode (0xAA :: 0x55 :: l0 :: l1 :: 0x01 :: rv :: crcv ::
      a1 :: a2 :: a3 :: a4 :: a5 :: a6 :: t) = .err .invalidChksum := by
  simp only [Packet.Decode]
  rw [if_neg, if_neg, if_neg, if_neg, if_pos hpay]
  · simp [hcrc]
  · simp
  · simp only [List.length_cons, ne_eq, Decidable.not_not]
    rw [hlen]
    omega
  · simp

/-- C2: Checksum isolation.  Flipping any single bit of an encoded
well-formed frame outside the magic (bytes 0 and 1), length (bytes 2 and
3) and version (byte 4) fields makes `Decode` fail with exactly the
`ErrInvalidChksum` error: the receiver byte and the CRC byte itself are
covered by the header CRC, and every payload byte as well as the two
trailing checksum bytes are covered by the ones-complement checksum. -/
theorem sacp_checksum_isolation (p : Packet) (i j : Nat) (h : WellFormed p)
    (hi : 5 ≤ i) (hil : i < 15 + p.data.length) (hj : j < 8) :
    Packet.Decode (flipBit (Packet.Encode p) i j) = .err .invalidChksum := by
  obtain ⟨r, s, a, q, u, w, d⟩ := p
  obtain ⟨hr, hs, ha, hq, hu, hw, hd, hn⟩ := h
  replace hil : i < 15 + d.length := hil
  have hr' : r % 256 = r := Nat.mod_eq_of_lt hr
  have hs' : s % 256 = s := Nat.mod_eq_of_lt hs
  have ha' : a % 256 = a := Nat.mod_eq_of_lt ha
  have hq' : q % 65536 = q := Nat.mod_eq_of_lt hq
  have hu' : u % 256 = u := Nat.mod_eq_of_lt hu
  have hw' : w % 256 = w := Nat.mod_eq_of_lt hw
  have hL : (d.length + 8) % 65536 = d.length + 8 := Nat.mod_eq_of_lt hn
  have hn6 : (d.length % 65536 + 6) % 65536 = d.length + 6 := by omega
  obtain ⟨ck, hckdef⟩ :
      ∃ c, c = u16Chksum (s :: a :: q % 256 :: q / 256 :: u :: w :: d) (d.length + 6) :=
    ⟨_, rfl⟩
  have hcklt : ck < 65536 := hckdef ▸ u16Chksum_lt _ _
  have eF : Packet.Encode ⟨r, s, a, q, u, w, d⟩
      = [170, 85, (d.length + 8) % 256, (d.length + 8) / 256, 1, r,
          headChksum [170, 85, (d.length + 8) % 256, (d.length + 8) / 256, 1, r]]
        ++ ((s :: a :: q % 256 :: q / 256 :: u :: w :: d) ++ [ck % 256, ck / 256]) := by
    rw [hckdef]
    simp only [Packet.Encode, hr', hs', ha', hq', hu', hw', hL, hn6, List.cons_append,
      List.nil_append]
  rw [eF]
  have hA7 : ([170, 85, (d.length + 8) % 256, (d.length + 8) / 256, 1, r,
      headChksum [170, 85, (d.length + 8) % 256, (d.length + 8) / 256, 1, r]] :
      List Nat).length = 7 := by simp
  have hBDlen : (s :: a :: q % 256 :: q / 256 :: u :: w :: d).length = d.length + 6 := by
    simp
  have hBD : ∀ x ∈ (s :: a :: q % 256 :: q / 256 :: u :: w :: d), x < 256 := by
    intro x hx
    simp only [List.mem_cons] at hx
    rcases hx with rfl | rfl | rfl | rfl | rfl | rfl | hx
    · exact hs
    · exact ha
    · exact Nat.mod_lt _ (by norm_num)
    · omega
    · exact hu
    · exact hw
    · exact hd x hx
  rcases (by omega :
      i = 5 ∨ i = 6 ∨ (7 ≤ i ∧ i < 13 + d.length) ∨ i = 13 + d.length ∨ i = 14 + d.length)
    with h5 | h6 | ⟨h7a, h7b⟩ | h13 | h14
  · -- flip in the receiver byte: the recomputed header CRC changes
    subst h5
    rw [flipBit_append_left _ _ _ _ (by rw [hA7]; omega)]
    have e5 : flipBit [170, 85, (d.length + 8) % 256, (d.length + 8) / 256, 1, r,
        headChksum [170, 85, (d.length + 8) % 256, (d.length + 8) / 256, 1, r]] 5 j
        = [170, 85, (d.length + 8) % 256, (d.length + 8) / 256, 1, r ^^^ 1 <<< j,
           headChksum [170, 85, (d.length + 8) % 256, (d.length + 8) / 256, 1, r]] := rfl
    rw [e5]
    simp only [List.cons_append, List.nil_append]
    exact decode_headcrc_fail _ _ _ _ _ _ _ _ _ _ _
      (by rw [le16_split _ hn]
          simp only [List.length_append, List.length_cons, List.length_nil]
          omega)
      (by simp only [headChksum, List.foldl_cons, List.foldl_nil]
          exact crcByte_flip_ne _ r j hj)
  · -- flip in the stored header CRC byte
    subst h6
    rw [flipBit_append_left _ _ _ _ (by rw [hA7]; omega)]
    have e6 : flipBit [170, 85, (d.length + 8) % 256, (d.length + 8) / 256, 1, r,
        headChksum [170, 85, (d.length + 8) % 256, (d.length + 8) / 256, 1, r]] 6 j
        = [170, 85, (d.length + 8) % 256, (d.length + 8) / 256, 1, r,
           headChksum [170, 85, (d.length + 8) % 256, (d.length + 8) / 256, 1, r]
             ^^^ 1 <<< j] := rfl
    rw [e6]
    simp only [List.cons_append, List.nil_append]
    exact decode_headcrc_fail _ _ _ _ _ _ _ _ _ _ _
      (by rw [le16_split _ hn]
          simp only [List.length_append, List.length_cons, List.length_nil]
          omega)
      ((xor_ne_of_ne_zero _ _ (shiftLeft_one_ne_zero j)).symm)
  · -- flip in a body byte: the recomputed payload checksum changes
    rw [flipBit_append_right _ _ _ _ (by rw [hA7]; omega), hA7]
    rw [flipBit_append_left _ _ _ _ (by simp only [List.length_cons]; omega)]
    obtain ⟨B2, hB2⟩ :
        ∃ B2, B2 = flipBit (s :: a :: q % 256 :: q / 256 :: u :: w :: d) (i - 7) j :=
      ⟨_, rfl⟩
    rw [← hB2]
    have hB2len : B2.length = d.length + 6 := by
      rw [hB2]
      unfold flipBit
      rw [List.length_set]
      simp
    have hB2ne : u16Chksum B2 (d.length + 6) ≠ ck := by
      rw [hB2, hckdef]
      have hflip := u16Chksum_flip_ne (s :: a :: q % 256 :: q / 256 :: u :: w :: d)
        (i - 7) j hBD (by simp only [List.length_cons]; omega) hj
        (by simp only [List.length_cons]; omega)
      rw [hBDlen] at hflip
      exact hflip
    rw [cons6_decomp B2 (by rw [hB2len]; omega)]
    simp only [List.cons_append, List.nil_append]
    exact decode_paychk_fail _ _ _ _ _ _ _ _ _ _ _
      (by rw [le16_split _ hn]
          simp only [List.length_append, List.length_drop, List.length_cons,
            List.length_nil, hB2len]
          omega)
      rfl
      (by
        have hT : (B2.getD 0 0 :: B2.getD 1 0 :: B2.getD 2 0 :: B2.getD 3 0 ::
              B2.getD 4 0 :: B2.getD 5 0 :: (B2.drop 6 ++ [ck % 256, ck / 256]))
            = B2 ++ [ck % 256, ck / 256] := by
          conv_rhs => rw [cons6_decomp B2 (by rw [hB2len]; omega)]
          simp only [List.cons_append]
        rw [hT]
        have hi4 : (B2.drop 6 ++ [ck % 256, ck / 256]).length + 4 = B2.length := by
          simp only [List.length_append, List.length_drop, List.length_cons,
            List.length_nil, hB2len]
          omega
        have hi5 : (B2.drop 6 ++ [ck % 256, ck / 256]).length + 5 = B2.length + 1 := by
          simp only [List.length_append, List.length_drop, List.length_cons,
            List.length_nil, hB2len]
          omega
        rw [hi4, hi5, List.getD_append_right _ _ _ _ (le_refl _),
            List.getD_append_right _ _ _ _ (by omega)]
        simp only [Nat.sub_self, Nat.add_sub_cancel_left, List.getD_cons_zero,
          List.getD_cons_succ]
        rw [le16_split _ hcklt, le16_split _ hn]
        have harg : (d.length + 8 + 65534) % 65536 = d.length + 6 := by omega
        rw [harg, u16Chksum_take_eq _ _ _ (le_of_eq hB2len.symm)]
        exact hB2ne.symm)
  · -- flip in the first stored checksum byte
    subst h13
    rw [flipBit_append_right _ _ _ _ (by rw [hA7]; omega), hA7]
    have hidx : 13 + d.length - 7 = d.length + 6 := by omega
    rw [hidx]
    rw [flipBit_append_right _ _ _ _ (by simp only [List.length_cons]; omega)]
    have hidx2 : d.length + 6 - (s :: a :: q % 256 :: q / 256 :: u :: w :: d).length = 0 := by
      simp only [List.length_cons]
      omega
    rw [hidx2]
    have eK : flipBit [ck % 256, ck / 256] 0 j = [ck % 256 ^^^ 1 <<< j, ck / 256] := rfl
    rw [eK]
    simp only [List.cons_append, List.nil_append]
    exact decode_paychk_fail _ _ _ _ _ _ _ _ _ _ _
      (by rw [le16_split _ hn]
          simp only [List.length_append, List.length_cons, List.length_nil]
          omega)
      rfl
      (by
        have e7 : (s :: a :: q % 256 :: q / 256 :: u :: w ::
              (d ++ [ck % 256 ^^^ 1 <<< j, ck / 256]))
            = ([s, a, q % 256, q / 256, u, w] ++ d) ++ [ck % 256 ^^^ 1 <<< j, ck / 256] := by
          simp
        rw [e7]
        have hi4 : (d ++ [ck % 256 ^^^ 1 <<< j, ck / 256]).length + 4
            = (([s, a, q % 256, q / 256, u, w] ++ d : List Nat)).length := by
          simp only [List.length_append, List.length_cons, List.length_nil]
          omega
        have hi5 : (d ++ [ck % 256 ^^^ 1 <<< j, ck / 256]).length + 5
            = (([s, a, q % 256, q / 256, u, w] ++ d : List Nat)).length + 1 := by
          simp only [List.length_append, List.length_cons, List.length_nil]
          omega
        rw [hi4, hi5, List.getD_append_right _ _ _ _ (le_refl _),
            List.getD_append_right _ _ _ _ (by omega)]
        simp only [Nat.sub_self, Nat.add_sub_cancel_left, List.getD_cons_zero,
          List.getD_cons_succ]
        rw [le16_split _ hn]
        have harg : (d.length + 8 + 65534) % 65536 = d.length + 6 := by omega
        rw [harg, u16Chksum_take_eq _ _ _
          (by simp only [List.length_append, List.length_cons, List.length_nil]; omega)]
        have hsix : ([s, a, q % 256, q / 256, u, w] ++ d : List Nat)
            = s :: a :: q % 256 :: q / 256 :: u :: w :: d := by simp
        rw [hsix, ← hckdef]
        have hx : ck % 256 ^^^ 1 <<< j ≠ ck % 256 :=
          xor_ne_of_ne_zero _ _ (shiftLeft_one_ne_zero j)
        have hxlt : ck % 256 ^^^ 1 <<< j < 256 := by
          have hsl := shiftLeft_one_lt j hj
          calc ck % 256 ^^^ 1 <<< j < 2 ^ 8 := Nat.xor_lt_two_pow (by omega) (by omega)
            _ = 256 := by norm_num
        unfold le16
        rw [Nat.mod_eq_of_lt hxlt, Nat.mod_eq_of_lt (by omega : ck / 256 < 256)]
        omega)
  · -- flip in the second stored checksum byte
    subst h14
    rw [flipBit_append_right _ _ _ _ (by rw [hA7]; omega), hA7]
    have hidx : 14 + d.length - 7 = d.length + 7 := by omega
    rw [hidx]
    rw [flipBit_append_right _ _ _ _ (by simp only [List.length_cons]; omega)]
    have hidx2 : d.length + 7 - (s :: a :: q % 256 :: q / 256 :: u :: w :: d).length = 1 := by
      simp only [List.length_cons]
      omega
    rw [hidx2]
    have eK : flipBit [ck % 256, ck / 256] 1 j = [ck % 256, ck / 256 ^^^ 1 <<< j] := rfl
    rw [eK]
    simp only [List.cons_append, List.nil_append]
    exact decode_paychk_fail _ _ _ _ _ _ _ _ _ _ _
      (by rw [le16_split _ hn]
          simp only [List.length_append, List.length_cons, List.length_nil]
          omega)
      rfl
      (by
        have e7 : (s :: a :: q % 256 :: q / 256 :: u :: w ::
              (d ++ [ck % 256, ck / 256 ^^^ 1 <<< j]))
            = ([s, a, q % 256, q / 256, u, w] ++ d) ++ [ck % 256, ck / 256 ^^^ 1 <<< j] := by
          simp
        rw [e7]
        have hi4 : (d ++ [ck % 256, ck / 256 ^^^ 1 <<< j]).length + 4
            = (([s, a, q % 256, q / 256, u, w] ++ d : List Nat)).length := by
          simp only [List.length_append, List.length_cons, List.length_nil]
          omega
        have hi5 : (d ++ [ck % 256, ck / 256 ^^^ 1 <<< j]).length + 5
            = (([s, a, q % 256, q / 256, u, w] ++ d : List Nat)).length + 1 := by
          simp only [List.length_append, List.length_cons, List.length_nil]
          omega
        rw [hi4, hi5, List.getD_append_right _ _ _ _ (le_refl _),
            List.getD_append_right _ _ _ _ (by omega)]
        simp only [Nat.sub_self, Nat.add_sub_cancel_left, List.getD_cons_zero,
          List.getD_cons_succ]
        rw [le16_split _ hn]
        have harg : (d.length + 8 + 65534) % 65536 = d.length + 6 := by omega
        rw [harg, u16Chksum_take_eq _ _ _
          (by simp only [List.length_append, List.length_cons, List.length_nil]; omega)]
        have hsix : ([s, a, q % 256, q / 256, u, w] ++ d : List Nat)
            = s :: a :: q % 256 :: q / 256 :: u :: w :: d := by simp
        rw [hsix, ← hckdef]
        have hx : ck / 256 ^^^ 1 <<< j ≠ ck / 256 :=
          xor_ne_of_ne_zero _ _ (shiftLeft_one_ne_zero j)
        have hxlt : ck / 256 ^^^ 1 <<< j < 256 := by
          have hsl := shiftLeft_one_lt j hj
          calc ck / 256 ^^^ 1 <<< j < 2 ^ 8 := Nat.xor_lt_two_pow (by omega) (by omega)
            _ = 256 := by norm_num
        unfold le16
        rw [Nat.mod_eq_of_lt (by omega : ck % 256 < 256), Nat.mod_eq_of_lt hxlt]
        omega)

/-- Witness for C2: flipping bit 0 of byte 7 (the sender byte) of the
encoded frame of a concrete well-formed packet is rejected by `Decode`
with the checksum error. -/
theorem sacp_checksum_isolation_witness :
    Packet.Decode (flipBit (Packet.Encode ⟨1, 0, 0, 5, 1, 2, [3, 4]⟩) 7 0)
      = .err .invalidChksum ∧
    flipBit (Packet.Encode ⟨1, 0, 0, 5, 1, 2, [3, 4]⟩) 7 0
      = [170, 85, 10, 0, 1, 1, 83, 1, 0, 5, 0, 1, 2, 3, 4, 249, 246] :=
  ⟨sacp_checksum_isolation ⟨1, 0, 0, 5, 1, 2, [3, 4]⟩ 7 0 (by decide) (by decide)
      (by decide) (by decide),
    by decide⟩

/-!
### GCode processor (`gcode/process.go`)

Byte strings are `List Char`; Go `float64` metadata values are modelled as
exact rationals (the unnormalized `Q` below), which agrees with Go on the
decimal inputs and constants exercised here; Go `int` is `Int` with
`Int.tmod` for `%`.  Character classification (`ToUpper`, `ToLower`,
`TrimSpace`) is modelled on the ASCII range, which is all the processor's
comparisons inspect.  Array accesses with a computed index are guarded by
`idx2?`; an out-of-range index — a Go runtime panic — propagates as `none`.
-/

end Sacp

namespace GCode

/-- Exact rational numbers as unnormalized numerator/denominator pairs;
every constructor used keeps the denominator positive. -/
structure Q where
  num : Int
  den : Nat
deriving Repr, DecidableEq

def Q.ofInt (n : Int) : Q := ⟨n, 1⟩

def Q.zero : Q := ⟨0, 1⟩

def Q.add (a b : Q) : Q := ⟨a.num * b.den + b.num * a.den, a.den * b.den⟩

def Q.neg (a : Q) : Q := ⟨-a.num, a.den⟩

def Q.sub (a b : Q) : Q := Q.add a (Q.neg b)

def Q.mul (a b : Q) : Q := ⟨a.num * b.num, a.den * b.den⟩

/-- Division; the zero-divisor case never occurs in the processor. -/
def Q.div (a b : Q) : Q :=
  if b.num = 0 then ⟨0, 1⟩
  else ⟨a.num * b.den * (if b.num < 0 then -1 else 1), a.den * b.num.natAbs⟩

/-- Value equality (Go `==` on floats). -/
def Q.qeq (a b : Q) : Bool := a.num * b.den == b.num * a.den

def Q.qlt (a b : Q) : Bool := decide (a.num * (b.den : Int) < b.num * (a.den : Int))

def Q.qle (a b : Q) : Bool := decide (a.num * (b.den : Int) ≤ b.num * (a.den : Int))

def Q.qabs (a : Q) : Q := ⟨a.num.natAbs, a.den⟩

def Q.floorI (a : Q) : Int := Int.fdiv a.num a.den

/-- Go `int(f)`: truncation toward zero. -/
def Q.truncI (a : Q) : Int := Int.tdiv a.num a.den

def strToL (s : String) : List Char := s.toList

/-- ASCII whitespace, as in the fast path of Go `unicode.IsSpace`. -/
def isSpace (c : Char) : Bool :=
  c == ' ' || c == '\t' || c == '\n' || c == Char.ofNat 11 || c == Char.ofNat 12 || c == '\r'

def isDigit (c : Char) : Bool := decide ('0' ≤ c ∧ c ≤ '9')

/-- Go `unicode.ToUpper` restricted to ASCII. -/
def asciiUpper (c : Char) : Char :=
  if 'a' ≤ c ∧ c ≤ 'z' then Char.ofNat (c.toNat - 32) else c

/-- Go `unicode.ToLower` restricted to ASCII. -/
def asciiLower (c : Char) : Char :=
  if 'A' ≤ c ∧ c ≤ 'Z' then Char.ofNat (c.toNat + 32) else c

def asciiUpperStr (s : List Char) : List Char := s.map asciiUpper

def asciiLowerStr (s : List Char) : List Char := s.map asciiLower

/-- Go `strings.TrimSpace`. -/
def trimSpace (s : List Char) : List Char :=
  ((s.dropWhile isSpace).reverse.dropWhile isSpace).reverse

/-- Go `strings.Index`/`strings.IndexByte` for a one-byte needle. -/
def firstIdx (s : List Char) (c : Char) : Option Nat :=
  s.findIdx? (· == c)

/-- Go `strings.Split(s, sep)` for a one-byte separator. -/
def splitOnChar (sep : Char) : List Char → List (List Char)
  | [] => [[]]
  | c :: rest =>
    if c == sep then [] :: splitOnChar sep rest
    else
      match splitOnChar sep rest with
      | [] => [[c]]
      | l :: ls => (c :: l) :: ls

/-- Splitting at every whitespace character (empty chunks kept). -/
def splitWS : List Char → List (List Char)
  | [] => [[]]
  | c :: rest =>
    if isSpace c then [] :: splitWS rest
    else
      match splitWS rest with
      | [] => [[c]]
      | l :: ls => (c :: l) :: ls

/-- Go `strings.Fields`: the maximal whitespace-free chunks. -/
def fields (s : List Char) : List (List Char) :=
  (splitWS s).filter (fun f => !f.isEmpty)

/-- Go `strings.ReplaceAll(s, "\r\n", "\n")`. -/
def replaceCRLF : List Char → List Char
  | '\r' :: '\n' :: rest => '\n' :: replaceCRLF rest
  | c :: rest => c :: replaceCRLF rest
  | [] => []

/-- Go `strings.ReplaceAll(s, "\r", "\n")`. -/
def replaceCR (s : List Char) : List Char :=
  s.map fun c => if c = '\r' then '\n' else c

/-- Go `strings.Join(ls, "\n")`. -/
def joinNL : List (List Char) → List Char
  | [] => []
  | [l] => l
  | l :: rest => l ++ '\n' :: joinNL rest

def digitsToNat (s : List Char) : Nat :=
  s.foldl (fun a c => a * 10 + (c.toNat - 48)) 0

/-- All-digit string to value, `none` when empty or non-digit. -/
def digitsVal? (s : List Char) : Option Nat :=
  if !s.isEmpty && s.all isDigit then some (digitsToNat s) else none

/-- Go `strconv.Atoi`: optional sign, decimal digits, int64 range check. -/
def Atoi (s : List Char) : Option Int :=
  match s with
  | '+' :: rest =>
    (digitsVal? rest).bind fun n =>
      if n ≤ 9223372036854775807 then some (n : Int) else none
  | '-' :: rest =>
    (digitsVal? rest).bind fun n =>
      if n ≤ 9223372036854775808 then some (-(n : Int)) else none
  | _ =>
    (digitsVal? s).bind fun n =>
      if n ≤ 9223372036854775807 then some (n : Int) else none

/-- The largest finite `float64`, exactly. -/
def maxFloat64Q : Q :=
  ⟨179769313486231570814527423731704356798070567525844996598917476803157260780028538760589558632766878171540458953514382464234321326889464182768467546703537516986049910576551282076245490090389328944075868508455133942304583236903222948165808559332123348274797826204144723168738177180919299881250404026184124858368, 1⟩

/-- The `float64` value of Go `math.Pi`, exactly. -/
def piFloat64 : Q := ⟨884279719003555, 281474976710656⟩

/-- Go `strconv.ParseFloat` on the plain decimal forms the processor meets:
optional sign, digits with an optional fraction, optional decimal exponent,
with the `float64` overflow check (overflow is `ErrRange`, hence failure
for the callers).  The hexadecimal, `inf`/`NaN` and underscore forms of Go
syntax are not modelled. -/
def parseFloat? (s : List Char) : Option Q :=
  let sgn : Int := match s with | '-' :: _ => -1 | _ => 1
  let s1 : List Char := match s with | '-' :: r => r | '+' :: r => r | _ => s
  let ip := s1.takeWhile isDigit
  let r1 := s1.dropWhile isDigit
  let fp : List Char := match r1 with | '.' :: r => r.takeWhile isDigit | _ => []
  let r2 : List Char := match r1 with | '.' :: r => r.dropWhile isDigit | _ => r1
  let e? : Option Int :=
    match r2 with
    | [] => some 0
    | 'e' :: r => (match r with
        | '+' :: rr => (digitsVal? rr).map (fun n => (n : Int))
        | '-' :: rr => (digitsVal? rr).map (fun n => -(n : Int))
        | _ => (digitsVal? r).map (fun n => (n : Int)))
    | 'E' :: r => (match r with
        | '+' :: rr => (digitsVal? rr).map (fun n => (n : Int))
        | '-' :: rr => (digitsVal? rr).map (fun n => -(n : Int))
        | _ => (digitsVal? r).map (fun n => (n : Int)))
    | _ => none
  match e? with
  | none => none
  | some e =>
    if ip.isEmpty && fp.isEmpty then none
    else
      let v : Q :=
        if 0 ≤ e then
          ⟨sgn * digitsToNat (ip ++ fp) * (Nat.pow 10 e.toNat : Nat), Nat.pow 10 fp.length⟩
        else
          ⟨sgn * digitsToNat (ip ++ fp), Nat.pow 10 fp.length * Nat.pow 10 (-e).toNat⟩
      if Q.qlt maxFloat64Q (Q.qabs v) then none else some v

def natToStrGo : Nat → Nat → List Char
  | 0, _ => []
  | fuel + 1, n =>
    if n < 10 then [Char.ofNat (48 + n)]
    else natToStrGo fuel (n / 10) ++ [Char.ofNat (48 + n % 10)]

/-- Decimal rendering of a natural number (Go `fmt` `%d`). -/
def natToStr (n : Nat) : List Char := natToStrGo (n + 1) n

/-- Decimal rendering of an integer (Go `fmt` `%d`). -/
def intToStr (i : Int) : List Char :=
  if i < 0 then '-' :: natToStr (-i).toNat else natToStr i.toNat

/-- Rounding to an integer, ties to even, for nonnegative input
(Go `fmt` fixed-point rounding). -/
def rdHalfEven (x : Q) : Nat :=
  let f := x.floorI.toNat
  let r := Q.sub x (Q.ofInt f)
  let half : Q := ⟨1, 2⟩
  if Q.qlt half r then f + 1
  else if Q.qlt r half then f
  else if f % 2 = 0 then f else f + 1

/-- Go `fmt` `%.Nf` fixed-point formatting of a rational. -/
def fmtFixed (prec : Nat) (q : Q) : List Char :=
  let n := rdHalfEven (Q.mul (Q.qabs q) ⟨(Nat.pow 10 prec : Nat), 1⟩)
  let digits :=
    if prec = 0 then natToStr n
    else
      natToStr (n / Nat.pow 10 prec) ++ '.' ::
        (let fr := natToStr (n % Nat.pow 10 prec)
         List.replicate (prec - fr.length) '0' ++ fr)
  if Q.qlt q Q.zero then '-' :: digits else digits

/-- Valid `[2]`-array index from a remapped (`% 2`) Go `int`; `none` is the
index-out-of-range panic. -/
def idx2? (k : Int) : Option Nat :=
  if k = 0 then some 0 else if k = 1 then some 1 else none


/-- Go `gcode.metadata` (`[2]`-arrays split into `0`/`1` fields). -/
structure Metadata where
  nozzleTemp0 : Q
  nozzleTemp1 : Q
  nozzleTempSet0 : Bool
  nozzleTempSet1 : Bool
  bedTemp : Q
  bedTempSet : Bool
  minX : Q
  minY : Q
  minZ : Q
  maxX : Q
  maxY : Q
  maxZ : Q
  hasCoords : Bool
  filamentMM0 : Q
  filamentMM1 : Q
  layerHeight : Q
  estimatedTime : Q
  toolsUsed0 : Bool
  toolsUsed1 : Bool
  filamentType0 : List Char
  filamentType1 : List Char
  nozzleDiameter0 : Q
  nozzleDiameter1 : Q
  retraction0 : Q
  retraction1 : Q
  switchRetraction0 : Q
  switchRetraction1 : Q
  maxToolNum : Int
  lastToolLine0 : Int
  lastToolLine1 : Int
deriving Repr, DecidableEq

/-- The initializer literal at the top of `scanMetadata`. -/
def initMeta : Metadata where
  nozzleTemp0 := Q.zero
  nozzleTemp1 := Q.zero
  nozzleTempSet0 := false
  nozzleTempSet1 := false
  bedTemp := Q.zero
  bedTempSet := false
  minX := maxFloat64Q
  minY := maxFloat64Q
  minZ := maxFloat64Q
  maxX := Q.neg maxFloat64Q
  maxY := Q.neg maxFloat64Q
  maxZ := Q.neg maxFloat64Q
  hasCoords := false
  filamentMM0 := Q.zero
  filamentMM1 := Q.zero
  layerHeight := Q.zero
  estimatedTime := Q.zero
  toolsUsed0 := false
  toolsUsed1 := false
  filamentType0 := strToL "PLA"
  filamentType1 := strToL "PLA"
  nozzleDiameter0 := ⟨4, 10⟩
  nozzleDiameter1 := ⟨4, 10⟩
  retraction0 := ⟨8, 10⟩
  retraction1 := ⟨8, 10⟩
  switchRetraction0 := Q.zero
  switchRetraction1 := Q.zero
  maxToolNum := 0
  lastToolLine0 := -1
  lastToolLine1 := -1

def Metadata.lastToolLine (m : Metadata) (p : Nat) : Int :=
  if p = 0 then m.lastToolLine0 else m.lastToolLine1

def Metadata.setLastToolLine (m : Metadata) (p : Nat) (i : Int) : Metadata :=
  if p = 0 then { m with lastToolLine0 := i } else { m with lastToolLine1 := i }

def Metadata.setToolUsed (m : Metadata) (p : Nat) : Metadata :=
  if p = 0 then { m with toolsUsed0 := true } else { m with toolsUsed1 := true }

def Metadata.nozzleTempSetAt (m : Metadata) (p : Nat) : Bool :=
  if p = 0 then m.nozzleTempSet0 else m.nozzleTempSet1

def Metadata.setNozzleTemp (m : Metadata) (p : Nat) (v : Q) : Metadata :=
  if p = 0 then { m with nozzleTemp0 := v, nozzleTempSet0 := true }
  else { m with nozzleTemp1 := v, nozzleTempSet1 := true }

def Metadata.addFilament (m : Metadata) (p : Nat) (v : Q) : Metadata :=
  if p = 0 then { m with filamentMM0 := Q.add m.filamentMM0 v }
  else { m with filamentMM1 := Q.add m.filamentMM1 v }

/-- Go `parseDuration` (`"1h 30m 15s"`-style strings to seconds); the
source's `for` loop consumes at least one byte per round, so the input
length bounds the rounds and serves as fuel. -/
def parseDurGo : Nat → List Char → Q → Q
  | 0, _, total => total
  | fuel + 1, s, total =>
    let isNumByte : Char → Bool := fun c => isDigit c || c == '.'
    let numPart := s.takeWhile isNumByte
    if numPart.isEmpty || s.length ≤ numPart.length then total
    else
      match parseFloat? numPart with
      | none => total
      | some val =>
        let unit := (s.drop numPart.length).headD ' '
        let add : Q :=
          if unit == 'd' || unit == 'D' then Q.mul val ⟨86400, 1⟩
          else if unit == 'h' || unit == 'H' then Q.mul val ⟨3600, 1⟩
          else if unit == 'm' || unit == 'M' then Q.mul val ⟨60, 1⟩
          else if unit == 's' || unit == 'S' then val
          else Q.zero
        parseDurGo fuel (s.drop (numPart.length + 1)) (Q.add total add)

def parseDuration (s : List Char) : Q :=
  let s := s.filter (fun c => !(c == ' '))
  match parseFloat? s with
  | some v => v
  | none => parseDurGo s.length s Q.zero

/-- Go `scanComment`. -/
def scanComment (comment : List Char) (meta : Metadata) : Metadata :=
  let s := comment.dropWhile (fun c => c == ';' || c == ' ')
  let lower := asciiLowerStr s
  if (strToL "time:").isPrefixOf lower then
    match parseFloat? (trimSpace (s.drop 5)) with
    | some v => if Q.qeq meta.estimatedTime Q.zero then { meta with estimatedTime := v } else meta
    | none => meta
  else
    match firstIdx s '=' with
    | none => meta
    | some idx =>
      let key := trimSpace (asciiLowerStr (s.take idx))
      let val := trimSpace (s.drop (idx + 1))
      if key = strToL "layer_height" then
        match parseFloat? val with
        | some v => if Q.qeq meta.layerHeight Q.zero then { meta with layerHeight := v } else meta
        | none => meta
      else if key = strToL "estimated printing time" ∨
          key = strToL "estimated printing time (normal mode)" then
        if Q.qeq meta.estimatedTime Q.zero then
          { meta with estimatedTime := parseDuration val }
        else meta
      else if key = strToL "filament_type" then
        let parts := splitOnChar ';' val
        let m1 :=
          let t := trimSpace (parts.getD 0 [])
          if t ≠ [] then { meta with filamentType0 := t } else meta
        if 1 < parts.length then
          let t := trimSpace (parts.getD 1 [])
          if t ≠ [] then { m1 with filamentType1 := t } else m1
        else m1
      else if key = strToL "nozzle_diameter" then
        let parts := splitOnChar ',' val
        let m1 :=
          match parseFloat? (trimSpace (parts.getD 0 [])) with
          | some v => { meta with nozzleDiameter0 := v }
          | none => meta
        if 1 < parts.length then
          match parseFloat? (trimSpace (parts.getD 1 [])) with
          | some v => { m1 with nozzleDiameter1 := v }
          | none => m1
        else m1
      else if key = strToL "retract_length" then
        match parseFloat? ((splitOnChar ',' val).getD 0 []) with
        | some v => { meta with retraction0 := v, retraction1 := v }
        | none => meta
      else if key = strToL "retract_length_toolchange" then
        match parseFloat? ((splitOnChar ',' val).getD 0 []) with
        | some v => { meta with switchRetraction0 := v, switchRetraction1 := v }
        | none => meta
      else meta

/-- Go `isG0G1`. -/
def isG0G1 (upper : List Char) : Bool :=
  (strToL "G0 ").isPrefixOf upper || (strToL "G1 ").isPrefixOf upper ||
  (strToL "G0\t").isPrefixOf upper || (strToL "G1\t").isPrefixOf upper ||
  upper == strToL "G0" || upper == strToL "G1"

/-- The parameter loop of Go `scanTempCommand`: final `(sVal, tVal)`. -/
def tempParams : List (List Char) → Q → Int → Q × Int
  | [], sVal, tVal => (sVal, tVal)
  | f :: rest, sVal, tVal =>
    if f.length < 2 then tempParams rest sVal tVal
    else if f.headD ' ' = 'S' ∨ f.headD ' ' = 's' then
      match parseFloat? (f.drop 1) with
      | some v => tempParams rest v tVal
      | none => tempParams rest sVal tVal
    else if f.headD ' ' = 'T' ∨ f.headD ' ' = 't' then
      match Atoi (f.drop 1) with
      | some n => tempParams rest sVal n
      | none => tempParams rest sVal tVal
    else tempParams rest sVal tVal

/-- Go `scanTempCommand`; `none` is the index panic on a negative-odd
remapped tool. -/
def scanTempCommand (line : List Char) (currentTool : Int) (meta : Metadata)
    (isBed : Bool) : Option Metadata :=
  let (sVal, tVal) := tempParams ((fields line).drop 1) Q.zero currentTool
  if isBed then
    if !meta.bedTempSet && Q.qlt Q.zero sVal then
      some { meta with bedTemp := sVal, bedTempSet := true }
    else some meta
  else
    match idx2? (Int.tmod tVal 2) with
    | none => none
    | some p =>
      let m1 :=
        if !meta.nozzleTempSetAt p && Q.qlt Q.zero sVal then meta.setNozzleTemp p sVal
        else meta
      some (if m1.maxToolNum < tVal then { m1 with maxToolNum := tVal } else m1)

/-- The per-line scan state threaded through Go `scanMetadata`'s loop. -/
structure ScanState where
  meta : Metadata
  currentTool : Int
  relative : Bool
  lastAbsE : Q
  prevZ : Q
  zMoves : Nat
deriving Repr, DecidableEq

def initScan : ScanState := ⟨initMeta, 0, false, Q.zero, Q.zero, 0⟩

/-- The E-axis sweep of the `G92` branch. -/
def g92LastE (fs : List (List Char)) (lastAbsE : Q) : Q :=
  fs.foldl
    (fun acc f =>
      if 2 ≤ f.length ∧ (f.headD ' ' = 'E' ∨ f.headD ' ' = 'e') then
        match parseFloat? (f.drop 1) with
        | some v => v
        | none => acc
      else acc)
    lastAbsE

/-- The field loop of the `G0`/`G1` branch of Go `scanMetadata`;
`none` is the `lastToolLine`/`filamentMM` index panic. -/
def scanMove (i : Nat) (remapped : Int) : List (List Char) → ScanState → Option ScanState
  | [], st => some st
  | f :: rest, st =>
    if f.length < 2 then scanMove i remapped rest st
    else
      match parseFloat? (f.drop 1) with
      | none => scanMove i remapped rest st
      | some val =>
        let c := f.headD ' '
        if c = 'X' ∨ c = 'x' then
          let m := st.meta
          let m := { m with hasCoords := true }
          let m := if Q.qlt val m.minX then { m with minX := val } else m
          let m := if Q.qlt m.maxX val then { m with maxX := val } else m
          scanMove i remapped rest { st with meta := m }
        else if c = 'Y' ∨ c = 'y' then
          let m := st.meta
          let m := { m with hasCoords := true }
          let m := if Q.qlt val m.minY then { m with minY := val } else m
          let m := if Q.qlt m.maxY val then { m with maxY := val } else m
          scanMove i remapped rest { st with meta := m }
        else if c = 'Z' ∨ c = 'z' then
          let m := st.meta
          let m := { m with hasCoords := true }
          let m := if Q.qlt val m.minZ then { m with minZ := val } else m
          let m := if Q.qlt m.maxZ val then { m with maxZ := val } else m
          let m :=
            if Q.qeq m.layerHeight Q.zero ∧ 0 < st.zMoves ∧ Q.qlt st.prevZ val then
              { m with layerHeight := Q.sub val st.prevZ }
            else m
          scanMove i remapped rest
            { st with meta := m, prevZ := val, zMoves := st.zMoves + 1 }
        else if c = 'E' ∨ c = 'e' then
          match idx2? remapped with
          | none => none
          | some p =>
            let m := st.meta.setLastToolLine p i
            if st.relative then
              let m := if Q.qlt Q.zero val then m.addFilament p val else m
              scanMove i remapped rest { st with meta := m }
            else
              let m :=
                if Q.qlt st.lastAbsE val then m.addFilament p (Q.sub val st.lastAbsE)
                else m
              scanMove i remapped rest { st with meta := m, lastAbsE := val }
        else scanMove i remapped rest st

/-- The line loop of Go `scanMetadata`; `none` is an index panic. -/
def scanLines : List (List Char) → Nat → ScanState → Option ScanState
  | [], _, st => some st
  | line :: rest, i, st =>
    let trimmed := trimSpace line
    if (strToL ";").isPrefixOf trimmed then
      scanLines rest (i + 1) { st with meta := scanComment trimmed st.meta }
    else
      let code : List Char :=
        match firstIdx trimmed ';' with
        | some idx => trimSpace (trimmed.take idx)
        | none => trimmed
      let m1 : Metadata :=
        match firstIdx trimmed ';' with
        | some idx => scanComment (trimmed.drop idx) st.meta
        | none => st.meta
      let st1 := { st with meta := m1 }
      if code = [] then scanLines rest (i + 1) st1
      else
        let upper := asciiUpperStr code
        match (if 2 ≤ upper.length ∧ upper.headD ' ' = 'T' then Atoi (upper.drop 1)
               else none) with
        | some n =>
          let m2 := if m1.maxToolNum < n then { m1 with maxToolNum := n } else m1
          match idx2? (Int.tmod n 2) with
          | none => none
          | some p =>
            scanLines rest (i + 1)
              { st1 with currentTool := n,
                         meta := (m2.setToolUsed p).setLastToolLine p i }
        | none =>
          if upper = strToL "M82" then scanLines rest (i + 1) { st1 with relative := false }
          else if upper = strToL "M83" then scanLines rest (i + 1) { st1 with relative := true }
          else
            let st2 :=
              if (strToL "G92").isPrefixOf upper then
                { st1 with lastAbsE := g92LastE (fields code) st1.lastAbsE }
              else st1
            let mt? : Option Metadata :=
              if (strToL "M104 ").isPrefixOf upper ∨ (strToL "M109 ").isPrefixOf upper then
                scanTempCommand code st2.currentTool st2.meta false
              else if (strToL "M140 ").isPrefixOf upper ∨ (strToL "M190 ").isPrefixOf upper then
                scanTempCommand code st2.currentTool st2.meta true
              else some st2.meta
            match mt? with
            | none => none
            | some m3 =>
              let st3 := { st2 with meta := m3 }
              if isG0G1 upper then
                match scanMove i (Int.tmod st3.currentTool 2) ((fields code).drop 1) st3 with
                | none => none
                | some st4 => scanLines rest (i + 1) st4
              else scanLines rest (i + 1) st3

/-- Go `scanMetadata`; `none` is an index panic inside the scan. -/
def scanMetadata (lines : List (List Char)) : Option Metadata :=
  (scanLines lines 0 initScan).map fun st =>
    let m := st.meta
    let m :=
      if m.hasCoords then m
      else { m with minX := Q.zero, minY := Q.zero, minZ := Q.zero,
                    maxX := Q.zero, maxY := Q.zero, maxZ := Q.zero }
    let m := if Q.qlt Q.zero m.filamentMM0 then { m with toolsUsed0 := true } else m
    if Q.qlt Q.zero m.filamentMM1 then { m with toolsUsed1 := true } else m
/-- The code/comment split shared by `transformLines` and the claim-level
line recognizers: Go's `trimmed := TrimSpace(line)` followed by the split
at the first `';'`. -/
def splitCode (line : List Char) : List Char × List Char :=
  let trimmed := trimSpace line
  match firstIdx trimmed ';' with
  | some idx => (trimSpace (trimmed.take idx), trimmed.drop idx)
  | none => (trimmed, [])

/-- Go `strings.Join(fields, " ")`. -/
def joinSpace : List (List Char) → List Char
  | [] => []
  | [f] => f
  | f :: rest => f ++ ' ' :: joinSpace rest

/-- The per-field rewrite of Go `remapParam`: a `param`/`lower`-prefixed
field whose value is above 1 is replaced by `param` followed by the value
mod 2, with a flag recording whether the field changed. -/
def remapStep (param lower : Char) (f : List Char) : List Char × Bool :=
  if 2 ≤ f.length ∧ (f.headD ' ' = param ∨ f.headD ' ' = lower) then
    match Atoi (f.drop 1) with
    | some n => if 1 < n then (param :: intToStr (Int.tmod n 2), true) else (f, false)
    | none => (f, false)
  else (f, false)

/-- Go `remapParam`: rewrite `param` fields with values above 1 using
mod 2. -/
def remapParam (original codePart commentPart : List Char) (param : Char) : List Char :=
  let lower := Char.ofNat (param.toNat + 32)
  let mapped := (fields codePart).map (remapStep param lower)
  if mapped.all (fun p => !p.2) then original
  else
    joinSpace (mapped.map (fun p => p.1)) ++
      (if commentPart = [] then [] else ' ' :: commentPart)

/-- The `fmt.Sprintf("T%d", newTool)` line of the tool-change branch,
with the preserved comment. -/
def toolLineOut (newTool : Int) (commentPart : List Char) : List Char :=
  'T' :: intToStr newTool ++ (if commentPart = [] then [] else ' ' :: commentPart)

/-- The inserted `"M104 S0 T%d ; shutoff unused nozzle"` line. -/
def shutoffLine (p : Nat) : List Char :=
  strToL "M104 S0 T" ++ natToStr p ++ strToL " ; shutoff unused nozzle"

/-- The line loop of Go `transformLines`; `none` is the
`lastToolLine[prevTool]` index panic. -/
def transformGo (meta : Metadata) (needRemap : Bool) :
    List (List Char) → Nat → Int → Option (List (List Char))
  | [], _, _ => some []
  | line :: rest, i, currentTool =>
    let (codePart, commentPart) := splitCode line
    if codePart = [] then
      (transformGo meta needRemap rest (i + 1) currentTool).map (line :: ·)
    else
      let upper := asciiUpperStr codePart
      match (if 2 ≤ upper.length ∧ upper.headD ' ' = 'T' then Atoi (upper.drop 1)
             else none) with
      | some n =>
        let prevTool := Int.tmod currentTool 2
        let newTool := Int.tmod n 2
        let outLine := if needRemap ∧ 1 < n then toolLineOut newTool commentPart else line
        let shut? : Option (List (List Char)) :=
          if prevTool ≠ newTool then
            match idx2? prevTool with
            | none => none
            | some p =>
              if 0 ≤ meta.lastToolLine p ∧ meta.lastToolLine p ≤ (i : Int) then
                some [shutoffLine p]
              else some []
          else some []
        match shut? with
        | none => none
        | some shutLines =>
          (transformGo meta needRemap rest (i + 1) n).map (fun r => outLine :: shutLines ++ r)
      | none =>
        if needRemap ∧ ((strToL "M104 ").isPrefixOf upper ∨ (strToL "M109 ").isPrefixOf upper) then
          (transformGo meta needRemap rest (i + 1) currentTool).map
            (remapParam line codePart commentPart 'T' :: ·)
        else if needRemap ∧ ((strToL "M106 ").isPrefixOf upper ∨ (strToL "M107 ").isPrefixOf upper) then
          (transformGo meta needRemap rest (i + 1) currentTool).map
            (remapParam line codePart commentPart 'P' :: ·)
        else
          (transformGo meta needRemap rest (i + 1) currentTool).map (line :: ·)

/-- Go `transformLines`. -/
def transformLines (lines : List (List Char)) (meta : Metadata) : Option (List (List Char)) :=
  transformGo meta (decide (1 < meta.maxToolNum)) lines 0 0

/-- Go `strings.Contains`. -/
def containsSub (s pat : List Char) : Bool := decide (pat <:+: s)

/-- Go `isJ1Model`. -/
def isJ1Model (model : List Char) : Bool :=
  containsSub (asciiLowerStr model) (strToL "j1")

/-- Go `headerVersion`. -/
def headerVersion (printerModel : List Char) : List Char :=
  if isJ1Model printerModel then strToL "V1" else strToL "V0"

/-- One `;Extruder i ...` block of the V1 header. -/
def v1ExtruderBlock (i : Nat) (material : List Char)
    (temp nozzle retract switchRetract : Q) : List Char :=
  strToL ";Extruder " ++ natToStr i ++ strToL " Nozzle Size:" ++ fmtFixed 1 nozzle ++ ['\n'] ++
  strToL ";Extruder " ++ natToStr i ++ strToL " Material:" ++ material ++ ['\n'] ++
  strToL ";Extruder " ++ natToStr i ++ strToL " Print Temperature:" ++ fmtFixed 0 temp ++ ['\n'] ++
  strToL ";Extruder " ++ natToStr i ++ strToL " Retraction Distance:" ++ fmtFixed 2 retract ++ ['\n'] ++
  strToL ";Extruder " ++ natToStr i ++ strToL " Switch Retraction Distance:" ++
    fmtFixed 2 switchRetract ++ ['\n']

/-- Go `buildHeaderV1` (the 25-line J1/J1S header). -/
def buildHeaderV1 (meta : Metadata) (totalLines : Nat) : List Char :=
  let extruderMode := strToL "Default"
  let extrudersUsed : Nat :=
    (if meta.toolsUsed0 then 1 else 0) + (if meta.toolsUsed1 then 1 else 0)
  let extrudersUsed := if extrudersUsed = 0 then 1 else extrudersUsed
  let blk : Nat → List Char := fun i =>
    let used := if i = 0 then meta.toolsUsed0 else meta.toolsUsed1
    let material := if i = 0 then meta.filamentType0 else meta.filamentType1
    let temp := if i = 0 then meta.nozzleTemp0 else meta.nozzleTemp1
    let nozzle := if i = 0 then meta.nozzleDiameter0 else meta.nozzleDiameter1
    let retract := if i = 0 then meta.retraction0 else meta.retraction1
    let switchRetract := if i = 0 then meta.switchRetraction0 else meta.switchRetraction1
    if !used && (i == 1 || !meta.toolsUsed0) then
      v1ExtruderBlock i (strToL "-") Q.zero nozzle Q.zero Q.zero
    else
      v1ExtruderBlock i material temp nozzle retract switchRetract
  strToL ";Header Start\n" ++
  strToL ";Version:1\n" ++
  strToL ";Printer:Snapmaker J1\n" ++
  strToL ";Estimated Print Time:" ++ intToStr (Q.truncI meta.estimatedTime) ++ ['\n'] ++
  strToL ";Lines:" ++ natToStr (totalLines + 25) ++ ['\n'] ++
  strToL ";Extruder Mode:" ++ extruderMode ++ ['\n'] ++
  blk 0 ++ blk 1 ++
  strToL ";Bed Temperature:" ++ fmtFixed 0 meta.bedTemp ++ ['\n'] ++
  strToL ";Work Range - Min X:" ++ fmtFixed 4 meta.minX ++ ['\n'] ++
  strToL ";Work Range - Min Y:" ++ fmtFixed 4 meta.minY ++ ['\n'] ++
  strToL ";Work Range - Min Z:" ++ fmtFixed 4 meta.minZ ++ ['\n'] ++
  strToL ";Work Range - Max X:" ++ fmtFixed 4 meta.maxX ++ ['\n'] ++
  strToL ";Work Range - Max Y:" ++ fmtFixed 4 meta.maxY ++ ['\n'] ++
  strToL ";Work Range - Max Z:" ++ fmtFixed 4 meta.maxZ ++ ['\n'] ++
  strToL ";Extruder(s) Used:" ++ natToStr extrudersUsed ++ ['\n'] ++
  strToL ";Header End\n"

/-- Go `buildHeaderV0` (the A-series/Artisan header). -/
def buildHeaderV0 (meta : Metadata) (printerModel : List Char) : List Char :=
  let toolHead :=
    if meta.toolsUsed1 then strToL "dualExtruderToolheadForSM2"
    else strToL "singleExtruderToolheadForSM2"
  let machine := if printerModel = [] then strToL "Snapmaker" else printerModel
  let totalFilamentMM := Q.add meta.filamentMM0 meta.filamentMM1
  let totalFilamentM := Q.div totalFilamentMM ⟨1000, 1⟩
  let radiusMM : Q := ⟨875, 1000⟩
  let volumeCM3 := Q.div (Q.mul (Q.mul (Q.mul totalFilamentMM piFloat64) radiusMM) radiusMM) ⟨1000, 1⟩
  let weightG := Q.mul volumeCM3 ⟨124, 100⟩
  let estTime := Q.mul meta.estimatedTime ⟨107, 100⟩
  let extruderMask : Nat :=
    (if meta.toolsUsed0 then 1 else 0) + (if meta.toolsUsed1 then 2 else 0)
  let extruderMask := if extruderMask = 0 then 1 else extruderMask
  let layerHeight := if Q.qeq meta.layerHeight Q.zero then (⟨20, 100⟩ : Q) else meta.layerHeight
  strToL ";Header Start\n" ++
  strToL ";FAVOR:Marlin\n" ++
  strToL ";TIME:6666\n" ++
  strToL ";Filament used: " ++ fmtFixed 5 totalFilamentM ++ strToL "m\n" ++
  strToL ";Layer height: " ++ fmtFixed 2 layerHeight ++ ['\n'] ++
  strToL ";header_type: 3dp\n" ++
  strToL ";tool_head: " ++ toolHead ++ ['\n'] ++
  strToL ";machine: " ++ machine ++ ['\n'] ++
  strToL ";estimated_time(s): " ++ fmtFixed 0 estTime ++ ['\n'] ++
  strToL ";nozzle_temperature(°C): " ++ fmtFixed 0 meta.nozzleTemp0 ++ ['\n'] ++
  strToL ";nozzle_0_diameter(mm): " ++ fmtFixed 1 meta.nozzleDiameter0 ++ ['\n'] ++
  strToL ";nozzle_0_material: " ++ meta.filamentType0 ++ ['\n'] ++
  strToL ";nozzle_1_temperature(°C): " ++ fmtFixed 0 meta.nozzleTemp1 ++ ['\n'] ++
  strToL ";nozzle_1_diameter(mm): " ++ fmtFixed 1 meta.nozzleDiameter1 ++ ['\n'] ++
  strToL ";nozzle_1_material: " ++ meta.filamentType1 ++ ['\n'] ++
  strToL ";build_plate_temperature(°C): " ++ fmtFixed 0 meta.bedTemp ++ ['\n'] ++
  strToL ";max_x(mm): " ++ fmtFixed 4 meta.maxX ++ ['\n'] ++
  strToL ";max_y(mm): " ++ fmtFixed 4 meta.maxY ++ ['\n'] ++
  strToL ";max_z(mm): " ++ fmtFixed 4 meta.maxZ ++ ['\n'] ++
  strToL ";min_x(mm): " ++ fmtFixed 4 meta.minX ++ ['\n'] ++
  strToL ";min_y(mm): " ++ fmtFixed 4 meta.minY ++ ['\n'] ++
  strToL ";min_z(mm): " ++ fmtFixed 4 meta.minZ ++ ['\n'] ++
  strToL ";Extruder(s) Used = " ++ natToStr extruderMask ++ ['\n'] ++
  strToL ";matierial_weight: " ++ fmtFixed 4 weightG ++ ['\n'] ++
  strToL ";matierial_length: " ++ fmtFixed 5 totalFilamentM ++ ['\n'] ++
  strToL ";Header End\n"

/-- Go `buildHeader`. -/
def buildHeader (meta : Metadata) (printerModel : List Char) (totalLines : Nat) : List Char :=
  if isJ1Model printerModel then buildHeaderV1 meta totalLines
  else buildHeaderV0 meta printerModel

/-- Go `gcode.Process`; `none` is a panic inside the scan or transform
passes. -/
def Process (data : List Char) (printerModel : List Char) : Option (List Char) :=
  if containsSub data (strToL ";Header Start") then some data
  else
    let content := replaceCR (replaceCRLF data)
    let lines := splitOnChar '\n' content
    match scanMetadata lines with
    | none => none
    | some meta =>
      match transformLines lines meta with
      | none => none
      | some transformed =>
        some (buildHeader meta printerModel transformed.length ++ joinNL transformed)

/-- C4: GCode processing is claimed to be a total pure transformation
satisfying the idempotence equation for every byte sequence, but the
tool-change line `T-1` makes `scanMetadata` index `toolsUsed[-1]`
(`-1 % 2 = -1` on Go ints), a runtime panic, so `Process` crashes instead
of returning bytes. -/
theorem process_crash_on_negative_tool :
    Process (strToL "T-1") (strToL "Snapmaker A350") = none := by decide

theorem append3_chain (l1 l2 l3 X : List Char) :
    l1 ++ (l2 ++ l3) <+: l1 ++ (l2 ++ (l3 ++ X)) :=
  ⟨X, by simp⟩

theorem buildHeaderV1_start (meta : Metadata) (n : Nat) :
    strToL ";Header Start\n;Version:1\n;Printer:Snapmaker J1\n" <+: buildHeaderV1 meta n := by
  have e : strToL ";Header Start\n;Version:1\n;Printer:Snapmaker J1\n"
      = strToL ";Header Start\n" ++ (strToL ";Version:1\n" ++ strToL ";Printer:Snapmaker J1\n") := by
    decide
  rw [e]
  simp only [buildHeaderV1, List.append_assoc]
  exact append3_chain _ _ _ _

theorem buildHeaderV0_start (meta : Metadata) (model : List Char) :
    strToL ";Header Start\n;FAVOR:Marlin\n;TIME:6666\n" <+: buildHeaderV0 meta model := by
  have e : strToL ";Header Start\n;FAVOR:Marlin\n;TIME:6666\n"
      = strToL ";Header Start\n" ++ (strToL ";FAVOR:Marlin\n" ++ strToL ";TIME:6666\n") := by
    decide
  rw [e]
  simp only [buildHeaderV0, List.append_assoc]
  exact append3_chain _ _ _ _

theorem buildHeader_marker (meta : Metadata) (model : List Char) (n : Nat) :
    strToL ";Header Start" <+: buildHeader meta model n := by
  unfold buildHeader
  split
  · exact List.IsPrefix.trans
      (by decide :
        strToL ";Header Start" <+: strToL ";Header Start\n;Version:1\n;Printer:Snapmaker J1\n")
      (buildHeaderV1_start meta n)
  · exact List.IsPrefix.trans
      (by decide :
        strToL ";Header Start" <+: strToL ";Header Start\n;FAVOR:Marlin\n;TIME:6666\n")
      (buildHeaderV0_start meta model)

/-- Every successful `Process` output starts with the header marker, so a
second run hits the idempotency branch and returns it unchanged. -/
theorem process_idempotent_on_success (b m o : List Char) (h : Process b m = some o) :
    Process o m = some o := by
  have hcontains : containsSub o (strToL ";Header Start") = true := by
    unfold Process at h
    split at h
    · next hc =>
      rw [Option.some.injEq] at h
      subst h
      exact hc
    · next hc =>
      simp only [] at h
      split at h
      · exact absurd h (by simp)
      · next meta1 heq1 =>
        split at h
        · exact absurd h (by simp)
        · next transformed htr =>
          rw [Option.some.injEq] at h
          subst h
          have hpre : strToL ";Header Start" <+:
              buildHeader meta1 m transformed.length ++ joinNL transformed :=
            List.IsPrefix.trans (buildHeader_marker meta1 m transformed.length)
              (List.prefix_append _ _)
          exact decide_eq_true hpre.isInfix
  unfold Process
  rw [if_pos hcontains]

theorem process_success_eq (b m o : List Char) (h : Process b m = some o)
    (hb : containsSub b (strToL ";Header Start") = false) :
    ∃ meta transformed,
      scanMetadata (splitOnChar '\n' (replaceCR (replaceCRLF b))) = some meta ∧
      transformLines (splitOnChar '\n' (replaceCR (replaceCRLF b))) meta = some transformed ∧
      o = buildHeader meta m transformed.length ++ joinNL transformed := by
  unfold Process at h
  rw [if_neg (by simp [hb])] at h
  simp only [] at h
  split at h
  · exact absurd h (by simp)
  · next meta1 heq1 =>
    split at h
    · exact absurd h (by simp)
    · next transformed htr =>
      rw [Option.some.injEq] at h
      exact ⟨meta1, transformed, heq1, htr, h.symm⟩

/-- C6: Header format selection.  `Process` chooses between exactly the
two header formats by whether the printer model contains `"j1"`
case-insensitively: for J1 models the prepended block begins
`;Header Start`, `;Version:1`, `;Printer:Snapmaker J1`; for every other
model it is the V0 block, which begins `;Header Start` and then
`;FAVOR:Marlin`, `;TIME:6666` (the V0 block does not *begin* with
`;FAVOR:Marlin` as claimed — `;Header Start` comes first). -/
theorem header_format_selection (b m o : List Char) (h : Process b m = some o)
    (hb : containsSub b (strToL ";Header Start") = false) :
    (isJ1Model m = true →
      strToL ";Header Start\n;Version:1\n;Printer:Snapmaker J1\n" <+: o) ∧
    (isJ1Model m = false →
      strToL ";Header Start\n;FAVOR:Marlin\n;TIME:6666\n" <+: o) := by
  obtain ⟨meta, transformed, hsc, htr, ho⟩ := process_success_eq b m o h hb
  subst ho
  constructor
  · intro hj
    have hb1 : buildHeader meta m transformed.length = buildHeaderV1 meta transformed.length := by
      unfold buildHeader
      rw [if_pos hj]
    rw [hb1]
    exact List.IsPrefix.trans (buildHeaderV1_start meta transformed.length)
      (List.prefix_append _ _)
  · intro hj
    have hb0 : buildHeader meta m transformed.length = buildHeaderV0 meta m := by
      unfold buildHeader
      rw [if_neg (by simp [hj])]
    rw [hb0]
    exact List.IsPrefix.trans (buildHeaderV0_start meta m)
      (List.prefix_append _ _)

/-- The concrete non-J1 `Process` output used to check C6's description of
the V0 header. -/
def v0Probe : List Char := (Process [] (strToL "A350")).getD []

/-- C6 counterexample: for the non-J1 model `"A350"` the prepended block
does not begin with `;FAVOR:Marlin`; its first line is `;Header Start`. -/
theorem header_v0_counterexample :
    Process [] (strToL "A350") = some v0Probe ∧
    ¬ (strToL ";FAVOR:Marlin" <+: v0Probe) ∧
    (strToL ";Header Start\n;FAVOR:Marlin\n" <+: v0Probe) := by decide

/-- The concrete J1 `Process` output witnessing C6. -/
def j1Probe : List Char := (Process [] (strToL "J1")).getD []

/-- Witness for C6 at a concrete J1 model. -/
theorem header_format_selection_witness :
    Process [] (strToL "J1") = some j1Probe ∧
    strToL ";Header Start\n;Version:1\n;Printer:Snapmaker J1\n" <+: j1Probe :=
  ⟨by decide,
    (header_format_selection [] (strToL "J1") j1Probe (by decide) (by decide)).1 (by decide)⟩


/-! ### Tool-remap faithfulness (C5): line recognizers and the no-remap pass -/

/-- The tool-change value a line carries, parsed exactly as
`transformLines` parses it. -/
def toolVal? (line : List Char) : Option Int :=
  let code := (splitCode line).1
  let upper := asciiUpperStr code
  if 2 ≤ upper.length ∧ upper.headD ' ' = 'T' then Atoi (upper.drop 1) else none

/-- The integer values of `c`-prefixed (or lowercased-`c`-prefixed)
parameters of a line's code part, parsed exactly as `remapParam` parses
them. -/
def paramVals (c : Char) (line : List Char) : List Int :=
  (fields (splitCode line).1).filterMap fun f =>
    if 2 ≤ f.length ∧ (f.headD ' ' = c ∨ f.headD ' ' = Char.ofNat (c.toNat + 32)) then
      Atoi (f.drop 1)
    else none

/-- Whether the line is an `M104`/`M109` command, tested as
`transformLines` tests it. -/
def isTempLine (line : List Char) : Bool :=
  let upper := asciiUpperStr (splitCode line).1
  (strToL "M104 ").isPrefixOf upper || (strToL "M109 ").isPrefixOf upper

/-- Whether the line is an `M106`/`M107` command. -/
def isFanLine (line : List Char) : Bool :=
  let upper := asciiUpperStr (splitCode line).1
  (strToL "M106 ").isPrefixOf upper || (strToL "M107 ").isPrefixOf upper

/-- Every tool number readable off the line is below 2: its tool-change
value, its `T` parameters when it is a temperature command, and its `P`
parameters when it is a fan command. -/
def lineToolBound (line : List Char) : Bool :=
  (match toolVal? line with
   | some n => decide (n < 2)
   | none => true) &&
  (!isTempLine line || (paramVals 'T' line).all fun v => decide (v < 2)) &&
  (!isFanLine line || (paramVals 'P' line).all fun v => decide (v < 2))

theorem idx2?_cases (k : Int) (p : Nat) (h : idx2? k = some p) : p = 0 ∨ p = 1 := by
  unfold idx2? at h
  split at h
  · left
    exact (Option.some.inj h).symm
  · split at h
    · right
      exact (Option.some.inj h).symm
    · exact absurd h (by simp)

/-- With remapping off, the transform pass only copies input lines and
inserts shutoff commands. -/
theorem transformGo_noremap (meta : Metadata) :
    ∀ (lines : List (List Char)) (i : Nat) (ct : Int) (out : List (List Char)),
      transformGo meta false lines i ct = some out →
      lines.Sublist out ∧
        ∀ l ∈ out, l ∈ lines ∨ l = shutoffLine 0 ∨ l = shutoffLine 1
  | [], _, _, out, h => by
    simp only [transformGo, Option.some.injEq] at h
    subst h
    refine ⟨List.Sublist.refl _, ?_⟩
    intro l hl
    exact absurd hl (by simp)
  | line :: rest, i, ct, out, h => by
    rcases hsp : splitCode line with ⟨code, com⟩
    simp only [transformGo, hsp, Bool.false_eq_true, false_and, if_false] at h
    by_cases hcode : code = []
    · rw [if_pos hcode, Option.map_eq_some'] at h
      obtain ⟨r, hr, hout⟩ := h
      obtain ⟨hsub, hmem⟩ := transformGo_noremap meta rest (i + 1) ct r hr
      subst hout
      refine ⟨hsub.cons₂ line, ?_⟩
      intro l hl
      rcases List.mem_cons.1 hl with rfl | hl
      · exact Or.inl (List.mem_cons_self _ _)
      · rcases hmem l hl with hmem1 | hmem1
        · exact Or.inl (List.mem_cons_of_mem _ hmem1)
        · exact Or.inr hmem1
    · rw [if_neg hcode] at h
      rcases htv : (if 2 ≤ (asciiUpperStr code).length ∧ (asciiUpperStr code).headD ' ' = 'T'
          then Atoi ((asciiUpperStr code).drop 1) else none) with _ | n
      · simp only [htv] at h
        rw [Option.map_eq_some'] at h
        obtain ⟨r, hr, hout⟩ := h
        obtain ⟨hsub, hmem⟩ := transformGo_noremap meta rest (i + 1) ct r hr
        subst hout
        refine ⟨hsub.cons₂ line, ?_⟩
        intro l hl
        rcases List.mem_cons.1 hl with rfl | hl
        · exact Or.inl (List.mem_cons_self _ _)
        · rcases hmem l hl with hmem1 | hmem1
          · exact Or.inl (List.mem_cons_of_mem _ hmem1)
          · exact Or.inr hmem1
      · simp only [htv] at h
        rcases hsh : (if Int.tmod ct 2 ≠ Int.tmod n 2 then
            match idx2? (Int.tmod ct 2) with
            | none => none
            | some p =>
              if 0 ≤ meta.lastToolLine p ∧ meta.lastToolLine p ≤ (i : Int) then
                some [shutoffLine p]
              else some []
          else some []) with _ | shutLines
        · simp only [hsh] at h
          exact absurd h (by simp)
        · simp only [hsh] at h
          rw [Option.map_eq_some'] at h
          obtain ⟨r, hr, hout⟩ := h
          obtain ⟨hsub, hmem⟩ := transformGo_noremap meta rest (i + 1) n r hr
          subst hout
          have hshape : shutLines = [] ∨ shutLines = [shutoffLine 0] ∨ shutLines = [shutoffLine 1] := by
            split at hsh
            · split at hsh
              · exact absurd hsh (by simp)
              · next p hp =>
                split at hsh
                · rcases idx2?_cases _ _ hp with rfl | rfl
                  · exact Or.inr (Or.inl (Option.some.inj hsh).symm)
                  · exact Or.inr (Or.inr (Option.some.inj hsh).symm)
                · exact Or.inl (Option.some.inj hsh).symm
            · exact Or.inl (Option.some.inj hsh).symm
          constructor
          · refine List.Sublist.cons₂ line (List.Sublist.trans hsub ?_)
            exact List.sublist_append_right _ _
          · intro l hl
            rcases List.mem_cons.1 hl with rfl | hl
            · exact Or.inl (List.mem_cons_self _ _)
            rcases List.mem_append.1 hl with hl | hl
            · rcases hshape with rfl | rfl | rfl
              · exact absurd hl (by simp)
              · exact Or.inr (Or.inl (by simpa using hl))
              · exact Or.inr (Or.inr (by simpa using hl))
            · rcases hmem l hl with hmem1 | hmem1
              · exact Or.inl (List.mem_cons_of_mem _ hmem1)
              · exact Or.inr hmem1

theorem bool_eq_false {b : Bool} (h : ¬ b = true) : b = false := by
  cases b
  · rfl
  · exact absurd rfl h

theorem headD_append (a b : List Char) (d : Char) (h : a ≠ []) :
    (a ++ b).headD d = a.headD d := by
  cases a with
  | nil => exact absurd rfl h
  | cons c r => rfl

theorem headD_map (g : Char → Char) (l : List Char) (d : Char) (h : l ≠ []) :
    (l.map g).headD d = g (l.headD d) := by
  cases l with
  | nil => exact absurd rfl h
  | cons c r => rfl

theorem headD_mem (l : List Char) (d : Char) (h : l ≠ []) : l.headD d ∈ l := by
  cases l with
  | nil => exact absurd rfl h
  | cons c r => exact List.mem_cons_self _ _

theorem prefix_headD (l₁ l₂ : List Char) (d : Char) (hp : l₁ <+: l₂) (h : l₁ ≠ []) :
    l₂.headD d = l₁.headD d := by
  obtain ⟨t, rfl⟩ := hp
  exact headD_append l₁ t d h

theorem dropWhile_headD_false (p : Char → Bool) (l : List Char) (d : Char)
    (h : l.dropWhile p ≠ []) : p ((l.dropWhile p).headD d) = false := by
  induction l with
  | nil => exact absurd rfl h
  | cons c rest ih =>
    rw [List.dropWhile_cons] at h ⊢
    by_cases hc : p c = true
    · rw [if_pos hc] at h ⊢
      exact ih h
    · rw [if_neg hc]
      simp only [List.headD_cons]
      exact bool_eq_false hc

theorem dropWhile_eq_self_of_headD (p : Char → Bool) (l : List Char) (d : Char)
    (h : l = [] ∨ p (l.headD d) = false) : l.dropWhile p = l := by
  cases l with
  | nil => rfl
  | cons c rest =>
    rcases h with h | h
    · exact absurd h (by simp)
    · simp only [List.headD_cons] at h
      rw [List.dropWhile_cons, h]
      simp

theorem trimSpace_eq_self (s : List Char)
    (h1 : s = [] ∨ isSpace (s.headD 'x') = false)
    (h2 : s = [] ∨ isSpace (s.reverse.headD 'x') = false) :
    trimSpace s = s := by
  have h2' : s.reverse = [] ∨ isSpace (s.reverse.headD 'x') = false := by
    rcases h2 with h | h
    · subst h
      exact Or.inl rfl
    · exact Or.inr h
  unfold trimSpace
  rw [dropWhile_eq_self_of_headD isSpace s 'x' h1,
      dropWhile_eq_self_of_headD isSpace s.reverse 'x' h2', List.reverse_reverse]

theorem trimSpace_rev_headD (s : List Char) (d : Char) (h : trimSpace s ≠ []) :
    isSpace ((trimSpace s).reverse.headD d) = false := by
  unfold trimSpace at h ⊢
  rw [List.reverse_reverse]
  apply dropWhile_headD_false
  intro hcon
  rw [hcon] at h
  exact h rfl

theorem trimSpace_prefix_dropWhile (s : List Char) : trimSpace s <+: s.dropWhile isSpace := by
  have e : (trimSpace s).reverse = List.dropWhile isSpace ((s.dropWhile isSpace).reverse) := by
    unfold trimSpace
    rw [List.reverse_reverse]
  obtain ⟨pre, hpre⟩ : (trimSpace s).reverse <:+ (s.dropWhile isSpace).reverse := by
    rw [e]
    exact List.dropWhile_suffix _
  refine ⟨pre.reverse, ?_⟩
  have h2 := congrArg List.reverse hpre
  rwa [List.reverse_append, List.reverse_reverse, List.reverse_reverse] at h2

theorem trimSpace_headD (s : List Char) (d : Char) (h : trimSpace s ≠ []) :
    isSpace ((trimSpace s).headD d) = false := by
  have hpre := trimSpace_prefix_dropWhile s
  have hne : s.dropWhile isSpace ≠ [] := by
    intro hcon
    rw [hcon, List.prefix_nil] at hpre
    exact h hpre
  rw [← prefix_headD _ _ d hpre h]
  exact dropWhile_headD_false isSpace s d hne

theorem trimSpace_subset (s : List Char) : ∀ c ∈ trimSpace s, c ∈ s := by
  intro c hc
  exact (List.dropWhile_suffix isSpace).sublist.subset
    ((trimSpace_prefix_dropWhile s).sublist.subset hc)

theorem findIdx?_none_mem (p : Char → Bool) :
    ∀ (l : List Char) (i : Nat), List.findIdx? p l i = none → ∀ x ∈ l, p x = false
  | [], _, _ => by
    intro x hx
    exact absurd hx (by simp)
  | c :: rest, i, h => by
    rw [List.findIdx?_cons] at h
    by_cases hc : p c = true
    · rw [if_pos hc] at h
      exact absurd h (by simp)
    · rw [if_neg hc] at h
      intro x hx
      rcases List.mem_cons.1 hx with rfl | hx
      · exact bool_eq_false hc
      · exact findIdx?_none_mem p rest (i + 1) h x hx

theorem findIdx?_spec (p : Char → Bool) :
    ∀ (l : List Char) (i k : Nat), List.findIdx? p l i = some k →
      i ≤ k ∧ k - i < l.length ∧ (∀ x ∈ l.take (k - i), p x = false) ∧
        p ((l.drop (k - i)).headD 'x') = true ∧ l.drop (k - i) ≠ []
  | [], i, k, h => by
    rw [List.findIdx?_nil] at h
    exact absurd h (by simp)
  | c :: rest, i, k, h => by
    rw [List.findIdx?_cons] at h
    by_cases hc : p c = true
    · rw [if_pos hc] at h
      have hk : k = i := (Option.some.inj h).symm
      subst hk
      refine ⟨le_refl _, by simp, ?_, ?_, by simp⟩
      · simp
      · simpa using hc
    · rw [if_neg hc] at h
      obtain ⟨h1, h2, h3, h4, h5⟩ := findIdx?_spec p rest (i + 1) k h
      have he : k - i = (k - (i + 1)) + 1 := by omega
      refine ⟨by omega, by simp only [List.length_cons]; omega, ?_, ?_, ?_⟩
      · rw [he, List.take_succ_cons]
        intro x hx
        rcases List.mem_cons.1 hx with rfl | hx
        · exact bool_eq_false hc
        · exact h3 x hx
      · rw [he, List.drop_succ_cons]
        exact h4
      · rw [he, List.drop_succ_cons]
        exact h5

theorem firstIdx_none_mem (s : List Char) (c : Char) (h : firstIdx s c = none) :
    ∀ x ∈ s, (x == c) = false :=
  findIdx?_none_mem _ s 0 h

theorem firstIdx_spec (s : List Char) (c : Char) (k : Nat) (h : firstIdx s c = some k) :
    (∀ x ∈ s.take k, (x == c) = false) ∧ (s.drop k).headD 'x' = c ∧
      s.drop k ≠ [] ∧ k < s.length := by
  unfold firstIdx at h
  obtain ⟨h1, h2, h3, h4, h5⟩ := findIdx?_spec _ s 0 k h
  rw [Nat.sub_zero] at h2 h3 h4 h5
  exact ⟨h3, beq_iff_eq.1 h4, h5, by omega⟩

theorem suffix_rev_headD (a b : List Char) (d : Char) (hs : a <:+ b) (h : a ≠ []) :
    a.reverse.headD d = b.reverse.headD d := by
  obtain ⟨pre, hpre⟩ := hs
  have hrevpre : a.reverse <+: b.reverse := by
    refine ⟨pre.reverse, ?_⟩
    have h2 := congrArg List.reverse hpre
    rwa [List.reverse_append] at h2
  exact (prefix_headD _ _ d hrevpre (by simpa using h)).symm

/-- Structural facts about the code part of `splitCode`: it contains no
semicolon and is trimmed on both ends. -/
theorem splitCode_code_facts (line : List Char) :
    (∀ c ∈ (splitCode line).1, (c == ';') = false) ∧
    ((splitCode line).1 = [] ∨ isSpace ((splitCode line).1.headD 'x') = false) ∧
    ((splitCode line).1 = [] ∨ isSpace ((splitCode line).1.reverse.headD 'x') = false) := by
  unfold splitCode
  rcases hidx : firstIdx (trimSpace line) ';' with _ | k
  · simp only [hidx]
    refine ⟨fun x hx => firstIdx_none_mem _ _ hidx x hx, ?_, ?_⟩
    · by_cases h : trimSpace line = []
      · exact Or.inl h
      · exact Or.inr (trimSpace_headD line 'x' h)
    · by_cases h : trimSpace line = []
      · exact Or.inl h
      · exact Or.inr (trimSpace_rev_headD line 'x' h)
  · simp only [hidx]
    obtain ⟨htake, hdh, hdn, hk⟩ := firstIdx_spec _ _ _ hidx
    refine ⟨?_, ?_, ?_⟩
    · intro x hx
      exact htake x (trimSpace_subset _ x hx)
    · by_cases h : trimSpace ((trimSpace line).take k) = []
      · exact Or.inl h
      · exact Or.inr (trimSpace_headD _ 'x' h)
    · by_cases h : trimSpace ((trimSpace line).take k) = []
      · exact Or.inl h
      · exact Or.inr (trimSpace_rev_headD _ 'x' h)

/-- The `let`-free unfolding of `splitCode`. -/
theorem splitCode_eq (line : List Char) :
    splitCode line = match firstIdx (trimSpace line) ';' with
      | some idx => (trimSpace ((trimSpace line).take idx), (trimSpace line).drop idx)
      | none => (trimSpace line, []) := rfl

/-- Structural facts about the comment part of `splitCode`: when present it
begins with the semicolon and ends with a non-space character. -/
theorem splitCode_com_facts (line : List Char) :
    (splitCode line).2 = [] ∨
      ((splitCode line).2.headD 'x' = ';' ∧
        isSpace ((splitCode line).2.reverse.headD 'x') = false) := by
  rw [splitCode_eq]
  rcases hidx : firstIdx (trimSpace line) ';' with _ | k
  · simp only [hidx]
    exact Or.inl trivial
  · simp only [hidx]
    obtain ⟨htake, hdh, hdn, hk⟩ := firstIdx_spec _ _ _ hidx
    refine Or.inr ⟨hdh, ?_⟩
    have htrne : trimSpace line ≠ [] := by
      intro hcon
      rw [hcon] at hdn
      exact hdn (by simp)
    show isSpace (((trimSpace line).drop k).reverse.headD 'x') = false
    rw [suffix_rev_headD _ _ 'x' (List.drop_suffix k _) hdn]
    exact trimSpace_rev_headD line 'x' htrne

/-! ### Whitespace fields, joining, and rebuilt lines -/

theorem splitWS_cons_eq (c : Char) (rest : List Char) :
    splitWS (c :: rest) =
      if isSpace c = true then [] :: splitWS rest
      else
        match splitWS rest with
        | [] => [[c]]
        | l :: ls => (c :: l) :: ls := rfl

theorem splitWS_ne_nil : ∀ s : List Char, splitWS s ≠ []
  | [] => by simp [splitWS]
  | c :: rest => by
    unfold splitWS
    by_cases hc : isSpace c = true
    · rw [if_pos hc]
      simp
    · rw [if_neg hc]
      rcases hs : splitWS rest with _ | ⟨l, ls⟩
      · simp only [hs]
        simp
      · simp only [hs]
        simp

theorem splitWS_mem_spacefree (s : List Char) : ∀ f ∈ splitWS s, ∀ c ∈ f, isSpace c = false := by
  induction s with
  | nil =>
    intro f hf c hc
    simp only [splitWS, List.mem_singleton] at hf
    subst hf
    exact absurd hc (by simp)
  | cons a rest ih =>
    intro f hf c hc
    unfold splitWS at hf
    by_cases ha : isSpace a = true
    · rw [if_pos ha] at hf
      rcases List.mem_cons.1 hf with rfl | hf
      · exact absurd hc (by simp)
      · exact ih f hf c hc
    · rw [if_neg ha] at hf
      rcases hs : splitWS rest with _ | ⟨l, ls⟩
      · exact absurd hs (splitWS_ne_nil rest)
      · simp only [hs] at hf
        rcases List.mem_cons.1 hf with rfl | hf
        · rcases List.mem_cons.1 hc with rfl | hc
          · exact bool_eq_false ha
          · exact ih l (hs ▸ List.mem_cons_self l ls) c hc
        · exact ih f (hs ▸ List.mem_cons_of_mem l hf) c hc

theorem splitWS_mem_subset (s : List Char) : ∀ f ∈ splitWS s, ∀ c ∈ f, c ∈ s := by
  induction s with
  | nil =>
    intro f hf c hc
    simp only [splitWS, List.mem_singleton] at hf
    subst hf
    exact absurd hc (by simp)
  | cons a rest ih =>
    intro f hf c hc
    unfold splitWS at hf
    by_cases ha : isSpace a = true
    · rw [if_pos ha] at hf
      rcases List.mem_cons.1 hf with rfl | hf
      · exact absurd hc (by simp)
      · exact List.mem_cons_of_mem a (ih f hf c hc)
    · rw [if_neg ha] at hf
      rcases hs : splitWS rest with _ | ⟨l, ls⟩
      · exact absurd hs (splitWS_ne_nil rest)
      · simp only [hs] at hf
        rcases List.mem_cons.1 hf with rfl | hf
        · rcases List.mem_cons.1 hc with rfl | hc
          · exact List.mem_cons_self c rest
          · exact List.mem_cons_of_mem a (ih l (hs ▸ List.mem_cons_self l ls) c hc)
        · exact List.mem_cons_of_mem a (ih f (hs ▸ List.mem_cons_of_mem l hf) c hc)

theorem splitWS_spacefree : ∀ (s : List Char), (∀ c ∈ s, isSpace c = false) → splitWS s = [s]
  | [], _ => rfl
  | a :: rest, h => by
    have ha : ¬ isSpace a = true := by
      rw [h a (List.mem_cons_self a rest)]
      simp
    rw [splitWS_cons_eq, if_neg ha,
        splitWS_spacefree rest (fun c hc => h c (List.mem_cons_of_mem a hc))]

theorem splitWS_append_space : ∀ (f t : List Char), (∀ c ∈ f, isSpace c = false) →
    splitWS (f ++ ' ' :: t) = f :: splitWS t
  | [], t, _ => by
    simp only [List.nil_append]
    rw [splitWS_cons_eq, if_pos (by decide)]
  | a :: r, t, h => by
    simp only [List.cons_append]
    have ha : ¬ isSpace a = true := by
      rw [h a (List.mem_cons_self a r)]
      simp
    rw [splitWS_cons_eq, if_neg ha,
        splitWS_append_space r t (fun c hc => h c (List.mem_cons_of_mem a hc))]

theorem fields_mem_ne_nil (s f : List Char) (hf : f ∈ fields s) : f ≠ [] := by
  unfold fields at hf
  have hkeep := List.of_mem_filter hf
  intro hcon
  subst hcon
  simp at hkeep

theorem fields_mem_spacefree (s f : List Char) (hf : f ∈ fields s) :
    ∀ c ∈ f, isSpace c = false :=
  splitWS_mem_spacefree s f (List.mem_of_mem_filter hf)

theorem fields_mem_subset (s f : List Char) (hf : f ∈ fields s) : ∀ c ∈ f, c ∈ s :=
  splitWS_mem_subset s f (List.mem_of_mem_filter hf)

theorem fields_append_space (f t : List Char) (hne : f ≠ [])
    (hsf : ∀ c ∈ f, isSpace c = false) : fields (f ++ ' ' :: t) = f :: fields t := by
  unfold fields
  rw [splitWS_append_space f t hsf, List.filter_cons, if_pos]
  cases f with
  | nil => exact absurd rfl hne
  | cons a r => simp

theorem fields_spacefree (s : List Char) (hne : s ≠ [])
    (hsf : ∀ c ∈ s, isSpace c = false) : fields s = [s] := by
  unfold fields
  rw [splitWS_spacefree s hsf, List.filter_cons, if_pos]
  · rfl
  · cases s with
    | nil => exact absurd rfl hne
    | cons a r => simp

theorem joinSpace_cons (f : List Char) (rest : List (List Char)) (h : rest ≠ []) :
    joinSpace (f :: rest) = f ++ ' ' :: joinSpace rest := by
  cases rest with
  | nil => exact absurd rfl h
  | cons g r => rfl

theorem joinSpace_ne_nil : ∀ (fs : List (List Char)), fs ≠ [] → (∀ f ∈ fs, f ≠ []) →
    joinSpace fs ≠ []
  | [], h, _ => absurd rfl h
  | [f], _, hmem => by
    have hf := hmem f (List.mem_cons_self f [])
    simpa [joinSpace] using hf
  | f :: g :: r, _, hmem => by
    rw [joinSpace_cons f (g :: r) (by simp)]
    intro hcon
    simp [List.append_eq_nil] at hcon

theorem joinSpace_headD (f : List Char) (rest : List (List Char)) (d : Char) (h : f ≠ []) :
    (joinSpace (f :: rest)).headD d = f.headD d := by
  cases rest with
  | nil => rfl
  | cons g r =>
    rw [joinSpace_cons f (g :: r) (by simp)]
    exact headD_append f _ d h

theorem joinSpace_rev_headD (d : Char) : ∀ (fs : List (List Char)), fs ≠ [] →
    (∀ f ∈ fs, f ≠ []) → ∃ f ∈ fs, (joinSpace fs).reverse.headD d = f.reverse.headD d
  | [], h, _ => absurd rfl h
  | [f], _, _ => ⟨f, List.mem_cons_self _ _, rfl⟩
  | f :: g :: r, _, hmem => by
    obtain ⟨f1, hf1, he⟩ := joinSpace_rev_headD d (g :: r) (by simp)
      (fun x hx => hmem x (List.mem_cons_of_mem f hx))
    refine ⟨f1, List.mem_cons_of_mem f hf1, ?_⟩
    have hJ : joinSpace (g :: r) ≠ [] :=
      joinSpace_ne_nil (g :: r) (by simp) (fun x hx => hmem x (List.mem_cons_of_mem f hx))
    rw [joinSpace_cons f (g :: r) (by simp), List.reverse_append, List.reverse_cons]
    rw [headD_append _ _ d (by simp)]
    rw [headD_append _ _ d (by simpa using hJ)]
    exact he

theorem joinSpace_mem : ∀ (fs : List (List Char)) (c : Char), c ∈ joinSpace fs →
    c = ' ' ∨ ∃ f ∈ fs, c ∈ f
  | [], c, h => absurd h (by simp [joinSpace])
  | [f], c, h => Or.inr ⟨f, List.mem_cons_self _ _, h⟩
  | f :: g :: r, c, h => by
    rw [joinSpace_cons f (g :: r) (by simp)] at h
    rcases List.mem_append.1 h with h | h
    · exact Or.inr ⟨f, List.mem_cons_self _ _, h⟩
    · rcases List.mem_cons.1 h with rfl | h
      · exact Or.inl rfl
      · rcases joinSpace_mem (g :: r) c h with h | ⟨f1, hf1, hc⟩
        · exact Or.inl h
        · exact Or.inr ⟨f1, List.mem_cons_of_mem f hf1, hc⟩

theorem fields_joinSpace : ∀ (fs : List (List Char)),
    (∀ f ∈ fs, f ≠ [] ∧ ∀ c ∈ f, isSpace c = false) → fields (joinSpace fs) = fs
  | [], _ => by
    simp [joinSpace, fields, splitWS]
  | [f], h => by
    have hf := h f (List.mem_cons_self _ _)
    have hjf : joinSpace [f] = f := rfl
    rw [hjf]
    exact fields_spacefree f hf.1 hf.2
  | f :: g :: r, h => by
    have hf := h f (List.mem_cons_self _ _)
    rw [joinSpace_cons f (g :: r) (by simp),
        fields_append_space f _ hf.1 hf.2,
        fields_joinSpace (g :: r) (fun x hx => h x (List.mem_cons_of_mem f hx))]

theorem findIdx?_eq_none_of_all (p : Char → Bool) :
    ∀ (l : List Char) (i : Nat), (∀ x ∈ l, p x = false) → List.findIdx? p l i = none
  | [], i, _ => by rw [List.findIdx?_nil]
  | c :: rest, i, h => by
    rw [List.findIdx?_cons, h c (List.mem_cons_self _ _), if_neg (by simp)]
    exact findIdx?_eq_none_of_all p rest (i + 1) (fun x hx => h x (List.mem_cons_of_mem c hx))

theorem findIdx?_append_false (p : Char → Bool) :
    ∀ (a b : List Char) (i : Nat), (∀ x ∈ a, p x = false) →
      List.findIdx? p (a ++ b) i = List.findIdx? p b (i + a.length)
  | [], b, i, _ => by simp
  | c :: r, b, i, h => by
    have harg : i + (c :: r).length = (i + 1) + r.length := by
      simp only [List.length_cons]
      omega
    rw [List.cons_append, List.findIdx?_cons, h c (List.mem_cons_self _ _), if_neg (by simp),
        harg]
    exact findIdx?_append_false p r b (i + 1) (fun x hx => h x (List.mem_cons_of_mem c hx))

theorem firstIdx_code_space_com (code com : List Char)
    (hsemi : ∀ x ∈ code, (x == ';') = false) :
    firstIdx (code ++ ' ' :: ';' :: com) ';' = some (code.length + 1) := by
  unfold firstIdx
  rw [findIdx?_append_false _ code _ 0 hsemi, List.findIdx?_cons, if_neg (by decide),
      List.findIdx?_cons, if_pos (by decide)]
  simp

theorem trimSpace_append_space (code : List Char) (hne : code ≠ [])
    (hh : isSpace (code.headD 'x') = false) (ht : isSpace (code.reverse.headD 'x') = false) :
    trimSpace (code ++ [' ']) = code := by
  unfold trimSpace
  rw [dropWhile_eq_self_of_headD isSpace (code ++ [' ']) 'x'
        (Or.inr (by rw [headD_append code [' '] 'x' hne]; exact hh))]
  rw [List.reverse_append, show ([' '] : List Char).reverse = [' '] from rfl,
      List.singleton_append, List.dropWhile_cons, if_pos (by decide)]
  rw [dropWhile_eq_self_of_headD isSpace code.reverse 'x' (Or.inr ht), List.reverse_reverse]

theorem trimSpace_code_space_com (code com : List Char) (hcne : code ≠ []) (hmne : com ≠ [])
    (hh : isSpace (code.headD 'x') = false) (ht : isSpace (com.reverse.headD 'x') = false) :
    trimSpace (code ++ ' ' :: com) = code ++ ' ' :: com := by
  apply trimSpace_eq_self
  · refine Or.inr ?_
    rw [headD_append code (' ' :: com) 'x' hcne]
    exact hh
  · refine Or.inr ?_
    rw [List.reverse_append, List.reverse_cons]
    rw [headD_append _ _ 'x' (by simp)]
    rw [headD_append _ _ 'x' (by simpa using hmne)]
    exact ht

theorem splitCode_build (code com : List Char) (hcne : code ≠ [])
    (hh : isSpace (code.headD 'x') = false) (ht : isSpace (code.reverse.headD 'x') = false)
    (hsemi : ∀ x ∈ code, (x == ';') = false)
    (hcom : com = [] ∨ (com.headD 'x' = ';' ∧ isSpace (com.reverse.headD 'x') = false)) :
    splitCode (code ++ (if com = [] then [] else ' ' :: com)) = (code, com) := by
  rcases hcom with rfl | ⟨hch, hct⟩
  · rw [if_pos rfl, List.append_nil, splitCode_eq,
        trimSpace_eq_self code (Or.inr hh) (Or.inr ht)]
    have hfi : firstIdx code ';' = none := findIdx?_eq_none_of_all _ code 0 hsemi
    simp only [hfi]
  · have hmne : com ≠ [] := by
      intro hcon
      rw [hcon] at hch
      exact absurd hch (by decide)
    obtain ⟨ct, rfl⟩ : ∃ ct, com = ';' :: ct := by
      cases com with
      | nil => exact absurd rfl hmne
      | cons c0 cs =>
        simp only [List.headD_cons] at hch
        subst hch
        exact ⟨cs, rfl⟩
    rw [if_neg hmne, splitCode_eq,
        trimSpace_code_space_com code (';' :: ct) hcne (by simp) hh hct]
    simp only [firstIdx_code_space_com code ct hsemi]
    rw [List.take_append 1, List.drop_append 1]
    simp only [List.take_succ_cons, List.take_zero, List.drop_succ_cons, List.drop_zero]
    rw [trimSpace_append_space code hcne hh ht]

/-! ### Character classification under ASCII upper-casing -/

theorem toNat_ofNat_small (k : Nat) (h : k < 55296) : (Char.ofNat k).toNat = k := by
  unfold Char.ofNat
  rw [dif_pos (Or.inl h)]
  unfold Char.ofNatAux
  simp only [Char.toNat]
  simp [UInt32.toNat, BitVec.toNat_ofNatLt]

theorem asciiUpper_space_inv (c : Char) (h : asciiUpper c = ' ') : c = ' ' := by
  unfold asciiUpper at h
  by_cases hc : 'a' ≤ c ∧ c ≤ 'z'
  · rw [if_pos hc] at h
    have h1 : 97 ≤ c.toNat := hc.1
    have h2 : c.toNat ≤ 122 := hc.2
    have h3 := congrArg Char.toNat h
    rw [toNat_ofNat_small (c.toNat - 32) (by omega),
        show (' ' : Char).toNat = 32 from rfl] at h3
    omega
  · rw [if_neg hc] at h
    exact h

theorem isSpace_id_upper (c : Char) (h : isSpace c = true) : asciiUpper c = c := by
  unfold isSpace at h
  simp only [Bool.or_eq_true, beq_iff_eq] at h
  rcases h with ((((rfl | rfl) | rfl) | rfl) | rfl) | rfl <;> decide

theorem isSpace_false_of_upper (c a : Char) (hu : asciiUpper c = a) (ha : isSpace a = false) :
    isSpace c = false := by
  by_cases h : isSpace c = true
  · rw [isSpace_id_upper c h] at hu
    subst hu
    rw [h] at ha
    exact absurd ha (by simp)
  · exact bool_eq_false h

theorem upperStr_cons_inv (s : List Char) (a : Char) (r : List Char)
    (h : asciiUpperStr s = a :: r) :
    ∃ c t, s = c :: t ∧ asciiUpper c = a ∧ asciiUpperStr t = r := by
  cases s with
  | nil => exact absurd h (by simp [asciiUpperStr])
  | cons c t =>
    simp only [asciiUpperStr, List.map_cons, List.cons.injEq] at h
    exact ⟨c, t, rfl, h.1, h.2⟩

theorem upper_m10_decomp (code : List Char) (d : Char)
    (hpref : (['M', '1', '0', d, ' '] : List Char) <+: asciiUpperStr code) :
    ∃ c0 c1 c2 c3 rest, code = c0 :: c1 :: c2 :: c3 :: ' ' :: rest ∧
      asciiUpper c0 = 'M' ∧ asciiUpper c1 = '1' ∧ asciiUpper c2 = '0' ∧ asciiUpper c3 = d := by
  obtain ⟨u, hu⟩ := hpref
  rw [show (['M', '1', '0', d, ' '] : List Char) ++ u = 'M' :: '1' :: '0' :: d :: ' ' :: u
        from rfl] at hu
  obtain ⟨c0, t0, rfl, h0, h0r⟩ := upperStr_cons_inv _ _ _ hu.symm
  obtain ⟨c1, t1, rfl, h1, h1r⟩ := upperStr_cons_inv _ _ _ h0r
  obtain ⟨c2, t2, rfl, h2, h2r⟩ := upperStr_cons_inv _ _ _ h1r
  obtain ⟨c3, t3, rfl, h3, h3r⟩ := upperStr_cons_inv _ _ _ h2r
  obtain ⟨c4, t4, rfl, h4, h4r⟩ := upperStr_cons_inv _ _ _ h3r
  have hc4 : c4 = ' ' := asciiUpper_space_inv c4 h4
  subst hc4
  exact ⟨c0, c1, c2, c3, t4, rfl, h0, h1, h2, h3⟩

theorem remapStep_cases (param lower : Char) (f : List Char) :
    (remapStep param lower f = (f, false) ∧
      ((2 ≤ f.length ∧ (f.headD ' ' = param ∨ f.headD ' ' = lower)) →
        ∀ n, Atoi (f.drop 1) = some n → n < 2)) ∨
    (∃ n, 1 < n ∧ Atoi (f.drop 1) = some n ∧
      remapStep param lower f = (param :: intToStr (Int.tmod n 2), true)) := by
  unfold remapStep
  by_cases hc : 2 ≤ f.length ∧ (f.headD ' ' = param ∨ f.headD ' ' = lower)
  · rw [if_pos hc]
    rcases hA : Atoi (f.drop 1) with _ | n
    · simp only [hA]
      left
      exact ⟨trivial, fun _ m hm => absurd hm (by simp)⟩
    · simp only [hA]
      by_cases hn : 1 < n
      · rw [if_pos hn]
        exact Or.inr ⟨n, hn, rfl, rfl⟩
      · rw [if_neg hn]
        left
        refine ⟨rfl, fun _ m hm => ?_⟩
        have hmn := Option.some.inj hm
        omega
  · rw [if_neg hc]
    exact Or.inl ⟨rfl, fun hcond => absurd hcond hc⟩

theorem remapStep_head_M (param lower : Char) (f : List Char)
    (hpl : (param = 'T' ∧ lower = 't') ∨ (param = 'P' ∧ lower = 'p'))
    (hf : asciiUpper (f.headD ' ') = 'M') :
    remapStep param lower f = (f, false) := by
  unfold remapStep
  rw [if_neg]
  rintro ⟨hlen, hh | hh⟩ <;>
    rcases hpl with ⟨rfl, rfl⟩ | ⟨rfl, rfl⟩ <;>
      rw [hh] at hf <;> exact absurd hf (by decide)

theorem same_len_prefix_eq (a b u : List Char) (h1 : a <+: u) (h2 : b <+: u)
    (hl : a.length = b.length) : a = b :=
  List.IsPrefix.eq_of_length (List.prefix_of_prefix_length_le h1 h2 (le_of_eq hl)) hl

theorem isPrefixOf_false_of_ne_m10 (a : List Char) (d : Char) (x : List Char)
    (hlen : a.length = 5) (hne : a ≠ ['M', '1', '0', d, ' ']) :
    a.isPrefixOf ('M' :: '1' :: '0' :: d :: ' ' :: x) = false := by
  apply bool_eq_false
  intro hp
  have hp2 := List.isPrefixOf_iff_prefix.1 hp
  have hq : (['M', '1', '0', d, ' '] : List Char) <+: 'M' :: '1' :: '0' :: d :: ' ' :: x :=
    ⟨x, rfl⟩
  exact hne (same_len_prefix_eq a _ _ hp2 hq (by rw [hlen]; rfl))

theorem isPrefixOf_false_of_longer (a b : List Char) (h : b.length < a.length) :
    a.isPrefixOf b = false := by
  apply bool_eq_false
  intro hp
  exact absurd (List.isPrefixOf_iff_prefix.1 hp).length_le (by omega)

theorem tmod_two_of_pos (n : Int) (h : 1 < n) :
    Int.tmod n 2 = 0 ∨ Int.tmod n 2 = 1 := by
  rw [Int.tmod_eq_emod (by omega) (by norm_num)]
  exact Int.emod_two_eq_zero_or_one n

/-! ### Per-line tool bounds of the remapping pass -/

theorem headD_irrel (l : List Char) (d1 d2 : Char) (h : l ≠ []) : l.headD d1 = l.headD d2 := by
  cases l with
  | nil => exact absurd rfl h
  | cons c r => rfl

theorem asciiUpperStr_headD (s : List Char) (d : Char) (h : s ≠ []) :
    (asciiUpperStr s).headD d = asciiUpper (s.headD d) :=
  headD_map asciiUpper s d h

theorem lineToolBound_intro (line : List Char)
    (h1 : ∀ n, toolVal? line = some n → n < 2)
    (h2 : isTempLine line = false ∨ ∀ v ∈ paramVals 'T' line, v < 2)
    (h3 : isFanLine line = false ∨ ∀ v ∈ paramVals 'P' line, v < 2) :
    lineToolBound line = true := by
  unfold lineToolBound
  rw [Bool.and_eq_true, Bool.and_eq_true]
  refine ⟨⟨?_, ?_⟩, ?_⟩
  · rcases htv : toolVal? line with _ | n
    · simp only [htv]
    · simp only [htv, decide_eq_true_eq]
      exact h1 n htv
  · rcases h2 with h2 | h2
    · rw [h2]
      rfl
    · rw [Bool.or_eq_true]
      right
      rw [List.all_eq_true]
      intro v hv
      rw [decide_eq_true_eq]
      exact h2 v hv
  · rcases h3 with h3 | h3
    · rw [h3]
      rfl
    · rw [Bool.or_eq_true]
      right
      rw [List.all_eq_true]
      intro v hv
      rw [decide_eq_true_eq]
      exact h3 v hv

theorem lineToolBound_of_code_nil (line : List Char) (h : (splitCode line).1 = []) :
    lineToolBound line = true := by
  have htv : toolVal? line = none := by
    unfold toolVal?
    rw [h]
    decide
  have ht : isTempLine line = false := by
    unfold isTempLine
    rw [h]
    decide
  have hf : isFanLine line = false := by
    unfold isFanLine
    rw [h]
    decide
  apply lineToolBound_intro
  · intro n hn
    rw [htv] at hn
    exact absurd hn (by simp)
  · exact Or.inl ht
  · exact Or.inl hf

theorem lineToolBound_of_plain (line code com : List Char) (hsp : splitCode line = (code, com))
    (htv : (if 2 ≤ (asciiUpperStr code).length ∧ (asciiUpperStr code).headD ' ' = 'T'
            then Atoi ((asciiUpperStr code).drop 1) else none) = none)
    (h104 : (strToL "M104 ").isPrefixOf (asciiUpperStr code) = false)
    (h109 : (strToL "M109 ").isPrefixOf (asciiUpperStr code) = false)
    (h106 : (strToL "M106 ").isPrefixOf (asciiUpperStr code) = false)
    (h107 : (strToL "M107 ").isPrefixOf (asciiUpperStr code) = false) :
    lineToolBound line = true := by
  apply lineToolBound_intro
  · intro n hn
    unfold toolVal? at hn
    simp only [hsp] at hn
    rw [htv] at hn
    exact absurd hn (by simp)
  · left
    unfold isTempLine
    simp only [hsp]
    rw [h104, h109]
    rfl
  · left
    unfold isFanLine
    simp only [hsp]
    rw [h106, h107]
    rfl

theorem isPrefixOf_false_headD (a u : List Char) (hne : a ≠ [])
    (hh : a.headD 'x' ≠ u.headD 'x') : a.isPrefixOf u = false := by
  apply bool_eq_false
  intro hp
  exact hh (prefix_headD a u 'x' (List.isPrefixOf_iff_prefix.1 hp) hne).symm

theorem lineToolBound_of_tool_small (line code com : List Char) (n : Int)
    (hsp : splitCode line = (code, com))
    (htv : (if 2 ≤ (asciiUpperStr code).length ∧ (asciiUpperStr code).headD ' ' = 'T'
            then Atoi ((asciiUpperStr code).drop 1) else none) = some n)
    (hn : n < 2) : lineToolBound line = true := by
  have hcond : 2 ≤ (asciiUpperStr code).length ∧ (asciiUpperStr code).headD ' ' = 'T' := by
    by_contra hc
    rw [if_neg hc] at htv
    exact absurd htv (by simp)
  have hu_ne : asciiUpperStr code ≠ [] := by
    intro hcon
    rw [hcon] at hcond
    simp at hcond
  have hhx : (asciiUpperStr code).headD 'x' = 'T' := by
    rw [headD_irrel _ 'x' ' ' hu_ne]
    exact hcond.2
  apply lineToolBound_intro
  · intro m hm
    unfold toolVal? at hm
    simp only [hsp] at hm
    rw [htv] at hm
    have hmn := Option.some.inj hm
    omega
  · left
    unfold isTempLine
    simp only [hsp]
    rw [isPrefixOf_false_headD _ _ (by decide) (by rw [hhx]; decide),
        isPrefixOf_false_headD _ _ (by decide) (by rw [hhx]; decide)]
    rfl
  · left
    unfold isFanLine
    simp only [hsp]
    rw [isPrefixOf_false_headD _ _ (by decide) (by rw [hhx]; decide),
        isPrefixOf_false_headD _ _ (by decide) (by rw [hhx]; decide)]
    rfl

theorem lineToolBound_toolLineOut (v : Int) (com : List Char) (hv : v = 0 ∨ v = 1)
    (hcom : com = [] ∨ (com.headD 'x' = ';' ∧ isSpace (com.reverse.headD 'x') = false)) :
    lineToolBound (toolLineOut v com) = true := by
  rcases hv with rfl | rfl
  · have he : toolLineOut 0 com = strToL "T0" ++ (if com = [] then [] else ' ' :: com) := rfl
    have hsp := splitCode_build (strToL "T0") com (by decide) (by decide) (by decide)
      (by decide) hcom
    rw [he]
    apply lineToolBound_intro
    · intro n hn
      unfold toolVal? at hn
      simp only [hsp] at hn
      rw [show (if 2 ≤ (asciiUpperStr (strToL "T0")).length ∧
            (asciiUpperStr (strToL "T0")).headD ' ' = 'T'
          then Atoi ((asciiUpperStr (strToL "T0")).drop 1) else none) = some 0
          from by decide] at hn
      have hmn := Option.some.inj hn
      omega
    · left
      unfold isTempLine
      simp only [hsp]
      decide
    · left
      unfold isFanLine
      simp only [hsp]
      decide
  · have he : toolLineOut 1 com = strToL "T1" ++ (if com = [] then [] else ' ' :: com) := rfl
    have hsp := splitCode_build (strToL "T1") com (by decide) (by decide) (by decide)
      (by decide) hcom
    rw [he]
    apply lineToolBound_intro
    · intro n hn
      unfold toolVal? at hn
      simp only [hsp] at hn
      rw [show (if 2 ≤ (asciiUpperStr (strToL "T1")).length ∧
            (asciiUpperStr (strToL "T1")).headD ' ' = 'T'
          then Atoi ((asciiUpperStr (strToL "T1")).drop 1) else none) = some 1
          from by decide] at hn
      have hmn := Option.some.inj hn
      omega
    · left
      unfold isTempLine
      simp only [hsp]
      decide
    · left
      unfold isFanLine
      simp only [hsp]
      decide

theorem lineToolBound_shutoff (p : Nat) (hp : p = 0 ∨ p = 1) :
    lineToolBound (shutoffLine p) = true := by
  rcases hp with rfl | rfl <;> decide

theorem remap_all_bound (param lower : Char) (code : List Char)
    (hall : (((fields code).map (remapStep param lower)).all fun p => !p.2) = true) :
    ∀ f ∈ fields code, ∀ v, (2 ≤ f.length ∧ (f.headD ' ' = param ∨ f.headD ' ' = lower)) →
      Atoi (f.drop 1) = some v → v < 2 := by
  intro f hf v hc hA
  have hstep := List.all_eq_true.1 hall (remapStep param lower f) (List.mem_map_of_mem _ hf)
  rcases remapStep_cases param lower f with ⟨heq, hbound⟩ | ⟨n, hn1, hnA, heq⟩
  · exact hbound hc v hA
  · rw [heq] at hstep
    simp at hstep

theorem mapped_member_bound (param lower : Char) (code : List Char) :
    ∀ m ∈ ((fields code).map (remapStep param lower)).map (fun p => p.1),
      ∀ v, (2 ≤ m.length ∧ (m.headD ' ' = param ∨ m.headD ' ' = lower)) →
        Atoi (m.drop 1) = some v → v < 2 := by
  intro m hm v hc hA
  obtain ⟨q, hq, rfl⟩ := List.mem_map.1 hm
  obtain ⟨f, hf, rfl⟩ := List.mem_map.1 hq
  rcases remapStep_cases param lower f with ⟨heq, hbound⟩ | ⟨n, hn1, hnA, heq⟩
  · simp only [heq] at hc hA
    exact hbound hc v hA
  · simp only [heq] at hc hA
    rcases tmod_two_of_pos n hn1 with h2 | h2
    · rw [h2, show intToStr (0 : Int) = ['0'] from by decide] at hA
      simp only [List.drop_succ_cons, List.drop_zero] at hA
      rw [show Atoi ['0'] = some 0 from by decide] at hA
      have hmn := Option.some.inj hA
      omega
    · rw [h2, show intToStr (1 : Int) = ['1'] from by decide] at hA
      simp only [List.drop_succ_cons, List.drop_zero] at hA
      rw [show Atoi ['1'] = some 1 from by decide] at hA
      have hmn := Option.some.inj hA
      omega

theorem mapped_member_good (param lower : Char)
    (hpl : (param = 'T' ∧ lower = 't') ∨ (param = 'P' ∧ lower = 'p'))
    (code : List Char) (hsemi : ∀ x ∈ code, (x == ';') = false) :
    ∀ m ∈ ((fields code).map (remapStep param lower)).map (fun p => p.1),
      m ≠ [] ∧ (∀ c ∈ m, isSpace c = false) ∧ (∀ c ∈ m, (c == ';') = false) := by
  intro m hm
  obtain ⟨q, hq, rfl⟩ := List.mem_map.1 hm
  obtain ⟨f, hf, rfl⟩ := List.mem_map.1 hq
  rcases remapStep_cases param lower f with ⟨heq, _⟩ | ⟨n, hn1, _, heq⟩
  · simp only [heq]
    exact ⟨fields_mem_ne_nil code f hf, fields_mem_spacefree code f hf,
           fun c hc => hsemi c (fields_mem_subset code f hf c hc)⟩
  · simp only [heq]
    rcases tmod_two_of_pos n hn1 with h2 | h2 <;> rw [h2] <;>
      rcases hpl with ⟨rfl, rfl⟩ | ⟨rfl, rfl⟩ <;>
        exact ⟨by decide, by decide, by decide⟩

theorem lineToolBound_rebuilt (mf : List (List Char)) (f0 : List Char)
    (mrest : List (List Char)) (com : List Char) (d : Char)
    (hmf : mf = f0 :: mrest)
    (hgood : ∀ m ∈ mf, m ≠ [] ∧ (∀ c ∈ m, isSpace c = false) ∧ (∀ c ∈ m, (c == ';') = false))
    (hud : asciiUpperStr f0 = ['M', '1', '0', d])
    (hT : (∀ m ∈ mf, ∀ v, (2 ≤ m.length ∧ (m.headD ' ' = 'T' ∨ m.headD ' ' = 't')) →
            Atoi (m.drop 1) = some v → v < 2) ∨
          ((strToL "M104 ") ≠ (['M', '1', '0', d, ' '] : List Char) ∧
           (strToL "M109 ") ≠ (['M', '1', '0', d, ' '] : List Char)))
    (hP : (∀ m ∈ mf, ∀ v, (2 ≤ m.length ∧ (m.headD ' ' = 'P' ∨ m.headD ' ' = 'p')) →
            Atoi (m.drop 1) = some v → v < 2) ∨
          ((strToL "M106 ") ≠ (['M', '1', '0', d, ' '] : List Char) ∧
           (strToL "M107 ") ≠ (['M', '1', '0', d, ' '] : List Char)))
    (hcom : com = [] ∨ (com.headD 'x' = ';' ∧ isSpace (com.reverse.headD 'x') = false)) :
    lineToolBound (joinSpace mf ++ (if com = [] then [] else ' ' :: com)) = true := by
  subst hmf
  have hf0good := hgood f0 (List.mem_cons_self _ _)
  have hf0ne := hf0good.1
  have hallne : ∀ f ∈ f0 :: mrest, f ≠ [] := fun f hf => (hgood f hf).1
  have hJne : joinSpace (f0 :: mrest) ≠ [] := joinSpace_ne_nil _ (by simp) hallne
  have hJh : isSpace ((joinSpace (f0 :: mrest)).headD 'x') = false := by
    rw [joinSpace_headD f0 mrest 'x' hf0ne]
    exact hf0good.2.1 _ (headD_mem f0 'x' hf0ne)
  have hJt : isSpace ((joinSpace (f0 :: mrest)).reverse.headD 'x') = false := by
    obtain ⟨f, hf, he⟩ := joinSpace_rev_headD 'x' (f0 :: mrest) (by simp) hallne
    rw [he]
    have hfne := (hgood f hf).1
    have hmm := headD_mem f.reverse 'x' (by simpa using hfne)
    exact (hgood f hf).2.1 _ (List.mem_reverse.1 hmm)
  have hJsemi : ∀ x ∈ joinSpace (f0 :: mrest), (x == ';') = false := by
    intro x hx
    rcases joinSpace_mem _ x hx with rfl | ⟨f, hf, hxf⟩
    · decide
    · exact (hgood f hf).2.2 x hxf
  have hspn := splitCode_build (joinSpace (f0 :: mrest)) com hJne hJh hJt hJsemi hcom
  have hupperhead : (asciiUpperStr (joinSpace (f0 :: mrest))).headD ' ' = 'M' := by
    rw [asciiUpperStr_headD _ ' ' hJne, joinSpace_headD f0 mrest ' ' hf0ne]
    have hx : (asciiUpperStr f0).headD ' ' = 'M' := by
      rw [hud]
      rfl
    rw [asciiUpperStr_headD f0 ' ' hf0ne] at hx
    exact hx
  apply lineToolBound_intro
  · intro n hn
    unfold toolVal? at hn
    simp only [hspn] at hn
    have hcondF : ¬(2 ≤ (asciiUpperStr (joinSpace (f0 :: mrest))).length ∧
        (asciiUpperStr (joinSpace (f0 :: mrest))).headD ' ' = 'T') := by
      rintro ⟨hlen, hhead⟩
      rw [hupperhead] at hhead
      exact absurd hhead (by decide)
    rw [if_neg hcondF] at hn
    exact absurd hn (by simp)
  · rcases hT with hTb | ⟨hne4, hne9⟩
    · right
      intro v hv
      unfold paramVals at hv
      simp only [hspn] at hv
      rw [show Char.ofNat ('T'.toNat + 32) = 't' from by decide] at hv
      rw [fields_joinSpace (f0 :: mrest)
            (fun f hf => ⟨(hgood f hf).1, (hgood f hf).2.1⟩)] at hv
      obtain ⟨m, hm, hmv⟩ := List.mem_filterMap.1 hv
      by_cases hcm : 2 ≤ m.length ∧ (m.headD ' ' = 'T' ∨ m.headD ' ' = 't')
      · rw [if_pos hcm] at hmv
        exact hTb m hm v hcm hmv
      · rw [if_neg hcm] at hmv
        exact absurd hmv (by simp)
    · left
      unfold isTempLine
      simp only [hspn]
      rcases mrest with _ | ⟨g, r⟩
      · rw [show joinSpace [f0] = f0 from rfl, hud,
            isPrefixOf_false_of_longer _ _
              (by rw [show strToL "M104 " = (['M', '1', '0', '4', ' '] : List Char) from rfl]
                  simp),
            isPrefixOf_false_of_longer _ _
              (by rw [show strToL "M109 " = (['M', '1', '0', '9', ' '] : List Char) from rfl]
                  simp)]
        rfl
      · rw [joinSpace_cons f0 (g :: r) (by simp)]
        have hmap : asciiUpperStr (f0 ++ ' ' :: joinSpace (g :: r)) =
            'M' :: '1' :: '0' :: d :: ' ' :: asciiUpperStr (joinSpace (g :: r)) := by
          unfold asciiUpperStr
          rw [List.map_append, List.map_cons,
              show f0.map asciiUpper = (['M', '1', '0', d] : List Char) from hud,
              show asciiUpper ' ' = ' ' from by decide]
          rfl
        rw [hmap,
            isPrefixOf_false_of_ne_m10 _ d _ (by decide) hne4,
            isPrefixOf_false_of_ne_m10 _ d _ (by decide) hne9]
        rfl
  · rcases hP with hPb | ⟨hne6, hne7⟩
    · right
      intro v hv
      unfold paramVals at hv
      simp only [hspn] at hv
      rw [show Char.ofNat ('P'.toNat + 32) = 'p' from by decide] at hv
      rw [fields_joinSpace (f0 :: mrest)
            (fun f hf => ⟨(hgood f hf).1, (hgood f hf).2.1⟩)] at hv
      obtain ⟨m, hm, hmv⟩ := List.mem_filterMap.1 hv
      by_cases hcm : 2 ≤ m.length ∧ (m.headD ' ' = 'P' ∨ m.headD ' ' = 'p')
      · rw [if_pos hcm] at hmv
        exact hPb m hm v hcm hmv
      · rw [if_neg hcm] at hmv
        exact absurd hmv (by simp)
    · left
      unfold isFanLine
      simp only [hspn]
      rcases mrest with _ | ⟨g, r⟩
      · rw [show joinSpace [f0] = f0 from rfl, hud,
            isPrefixOf_false_of_longer _ _
              (by rw [show strToL "M106 " = (['M', '1', '0', '6', ' '] : List Char) from rfl]
                  simp),
            isPrefixOf_false_of_longer _ _
              (by rw [show strToL "M107 " = (['M', '1', '0', '7', ' '] : List Char) from rfl]
                  simp)]
        rfl
      · rw [joinSpace_cons f0 (g :: r) (by simp)]
        have hmap : asciiUpperStr (f0 ++ ' ' :: joinSpace (g :: r)) =
            'M' :: '1' :: '0' :: d :: ' ' :: asciiUpperStr (joinSpace (g :: r)) := by
          unfold asciiUpperStr
          rw [List.map_append, List.map_cons,
              show f0.map asciiUpper = (['M', '1', '0', d] : List Char) from hud,
              show asciiUpper ' ' = ' ' from by decide]
          rfl
        rw [hmap,
            isPrefixOf_false_of_ne_m10 _ d _ (by decide) hne6,
            isPrefixOf_false_of_ne_m10 _ d _ (by decide) hne7]
        rfl

theorem lineToolBound_unchanged (line code com : List Char) (d : Char)
    (hsp : splitCode line = (code, com))
    (hpref : (['M', '1', '0', d, ' '] : List Char) <+: asciiUpperStr code)
    (hT : (∀ f ∈ fields code, ∀ v, (2 ≤ f.length ∧ (f.headD ' ' = 'T' ∨ f.headD ' ' = 't')) →
            Atoi (f.drop 1) = some v → v < 2) ∨
          ((strToL "M104 ") ≠ (['M', '1', '0', d, ' '] : List Char) ∧
           (strToL "M109 ") ≠ (['M', '1', '0', d, ' '] : List Char)))
    (hP : (∀ f ∈ fields code, ∀ v, (2 ≤ f.length ∧ (f.headD ' ' = 'P' ∨ f.headD ' ' = 'p')) →
            Atoi (f.drop 1) = some v → v < 2) ∨
          ((strToL "M106 ") ≠ (['M', '1', '0', d, ' '] : List Char) ∧
           (strToL "M107 ") ≠ (['M', '1', '0', d, ' '] : List Char))) :
    lineToolBound line = true := by
  have hu_ne : asciiUpperStr code ≠ [] := by
    intro hcon
    rw [hcon, List.prefix_nil] at hpref
    exact absurd hpref (by simp)
  have hexp : ∃ U, asciiUpperStr code = 'M' :: '1' :: '0' :: d :: ' ' :: U := by
    obtain ⟨U, hU⟩ := hpref
    exact ⟨U, hU.symm⟩
  obtain ⟨U, hU⟩ := hexp
  have hhead : (asciiUpperStr code).headD ' ' = 'M' := by
    rw [hU]
    rfl
  apply lineToolBound_intro
  · intro n hn
    unfold toolVal? at hn
    simp only [hsp] at hn
    have hcondF : ¬(2 ≤ (asciiUpperStr code).length ∧
        (asciiUpperStr code).headD ' ' = 'T') := by
      rintro ⟨hlen, hh⟩
      rw [hhead] at hh
      exact absurd hh (by decide)
    rw [if_neg hcondF] at hn
    exact absurd hn (by simp)
  · rcases hT with hTb | ⟨hne4, hne9⟩
    · right
      intro v hv
      unfold paramVals at hv
      simp only [hsp] at hv
      rw [show Char.ofNat ('T'.toNat + 32) = 't' from by decide] at hv
      obtain ⟨f, hf, hfv⟩ := List.mem_filterMap.1 hv
      by_cases hcf : 2 ≤ f.length ∧ (f.headD ' ' = 'T' ∨ f.headD ' ' = 't')
      · rw [if_pos hcf] at hfv
        exact hTb f hf v hcf hfv
      · rw [if_neg hcf] at hfv
        exact absurd hfv (by simp)
    · left
      unfold isTempLine
      simp only [hsp]
      rw [hU,
          isPrefixOf_false_of_ne_m10 _ d _ (by decide) hne4,
          isPrefixOf_false_of_ne_m10 _ d _ (by decide) hne9]
      rfl
  · rcases hP with hPb | ⟨hne6, hne7⟩
    · right
      intro v hv
      unfold paramVals at hv
      simp only [hsp] at hv
      rw [show Char.ofNat ('P'.toNat + 32) = 'p' from by decide] at hv
      obtain ⟨f, hf, hfv⟩ := List.mem_filterMap.1 hv
      by_cases hcf : 2 ≤ f.length ∧ (f.headD ' ' = 'P' ∨ f.headD ' ' = 'p')
      · rw [if_pos hcf] at hfv
        exact hPb f hf v hcf hfv
      · rw [if_neg hcf] at hfv
        exact absurd hfv (by simp)
    · left
      unfold isFanLine
      simp only [hsp]
      rw [hU,
          isPrefixOf_false_of_ne_m10 _ d _ (by decide) hne6,
          isPrefixOf_false_of_ne_m10 _ d _ (by decide) hne7]
      rfl

/-- With remapping on, every line the transform pass emits carries only
tool numbers below 2. -/
theorem transformGo_remap (meta : Metadata) :
    ∀ (lines : List (List Char)) (i : Nat) (ct : Int) (out : List (List Char)),
      transformGo meta true lines i ct = some out →
      ∀ l ∈ out, lineToolBound l = true
  | [], _, _, out, h => by
    simp only [transformGo, Option.some.injEq] at h
    subst h
    intro l hl
    exact absurd hl (by simp)
  | line :: rest, i, ct, out, h => by
    rcases hsp : splitCode line with ⟨code, com⟩
    simp only [transformGo, hsp, eq_self_iff_true, true_and] at h
    by_cases hcode : code = []
    · rw [if_pos hcode, Option.map_eq_some'] at h
      obtain ⟨r, hr, hout⟩ := h
      have ihm := transformGo_remap meta rest (i + 1) ct r hr
      subst hout
      intro l hl
      rcases List.mem_cons.1 hl with rfl | hl
      · exact lineToolBound_of_code_nil _ (by simp [hsp, hcode])
      · exact ihm l hl
    · rw [if_neg hcode] at h
      rcases htv : (if 2 ≤ (asciiUpperStr code).length ∧ (asciiUpperStr code).headD ' ' = 'T'
          then Atoi ((asciiUpperStr code).drop 1) else none) with _ | n
      · simp only [htv] at h
        by_cases htemp : ((strToL "M104 ").isPrefixOf (asciiUpperStr code) = true ∨
            (strToL "M109 ").isPrefixOf (asciiUpperStr code) = true)
        · rw [if_pos htemp, Option.map_eq_some'] at h
          obtain ⟨r, hr, hout⟩ := h
          have ihm := transformGo_remap meta rest (i + 1) ct r hr
          subst hout
          intro l hl
          rcases List.mem_cons.1 hl with rfl | hl
          · obtain ⟨d, hd, hpref⟩ : ∃ d, (d = '4' ∨ d = '9') ∧
                (['M', '1', '0', d, ' '] : List Char) <+: asciiUpperStr code := by
              rcases htemp with hph | hph
              · refine ⟨'4', Or.inl rfl, ?_⟩
                have hp := List.isPrefixOf_iff_prefix.1 hph
                rwa [show strToL "M104 " = (['M', '1', '0', '4', ' '] : List Char) from rfl]
                  at hp
              · refine ⟨'9', Or.inr rfl, ?_⟩
                have hp := List.isPrefixOf_iff_prefix.1 hph
                rwa [show strToL "M109 " = (['M', '1', '0', '9', ' '] : List Char) from rfl]
                  at hp
            have hcomf := splitCode_com_facts line
            simp only [hsp] at hcomf
            have hcodef := splitCode_code_facts line
            simp only [hsp] at hcodef
            have hremap_eq : remapParam line code com 'T' =
                if (((fields code).map (remapStep 'T' 't')).all fun p => !p.2) = true then line
                else joinSpace (((fields code).map (remapStep 'T' 't')).map fun p => p.1) ++
                  (if com = [] then [] else ' ' :: com) := by
              unfold remapParam
              rw [show Char.ofNat ('T'.toNat + 32) = 't' from by decide]
            rw [hremap_eq]
            by_cases hall : (((fields code).map (remapStep 'T' 't')).all fun p => !p.2) = true
            · rw [if_pos hall]
              exact lineToolBound_unchanged line code com d hsp hpref
                (Or.inl (remap_all_bound 'T' 't' code hall))
                (Or.inr ⟨by rcases hd with rfl | rfl <;> decide,
                         by rcases hd with rfl | rfl <;> decide⟩)
            · rw [if_neg hall]
              obtain ⟨c0, c1, c2, c3, crest, hcodeq, h0, h1, h2, h3⟩ :=
                upper_m10_decomp code d hpref
              subst hcodeq
              have hsemi := hcodef.1
              have hf0sf : ∀ c ∈ ([c0, c1, c2, c3] : List Char), isSpace c = false := by
                intro c hc
                simp only [List.mem_cons, List.not_mem_nil, or_false] at hc
                rcases hc with rfl | rfl | rfl | rfl
                · exact isSpace_false_of_upper _ _ h0 (by decide)
                · exact isSpace_false_of_upper _ _ h1 (by decide)
                · exact isSpace_false_of_upper _ _ h2 (by decide)
                · rcases hd with rfl | rfl
                  · exact isSpace_false_of_upper _ _ h3 (by decide)
                  · exact isSpace_false_of_upper _ _ h3 (by decide)
              have hf0semi : ∀ c ∈ ([c0, c1, c2, c3] : List Char), (c == ';') = false := by
                intro c hc
                apply hsemi
                simp only [List.mem_cons, List.not_mem_nil, or_false] at hc
                rcases hc with rfl | rfl | rfl | rfl <;> simp
              have hsemirest : ∀ x ∈ crest, (x == ';') = false := fun x hx =>
                hsemi x (List.mem_cons_of_mem _ (List.mem_cons_of_mem _
                  (List.mem_cons_of_mem _ (List.mem_cons_of_mem _
                    (List.mem_cons_of_mem _ hx)))))
              have hfields : fields (c0 :: c1 :: c2 :: c3 :: ' ' :: crest) =
                  [c0, c1, c2, c3] :: fields crest := by
                rw [show (c0 :: c1 :: c2 :: c3 :: ' ' :: crest : List Char) =
                      [c0, c1, c2, c3] ++ ' ' :: crest from rfl]
                exact fields_append_space _ _ (by simp) hf0sf
              have hstep0 : remapStep 'T' 't' [c0, c1, c2, c3] = ([c0, c1, c2, c3], false) :=
                remapStep_head_M 'T' 't' _ (Or.inl ⟨rfl, rfl⟩) (by simpa using h0)
              have hmapsplit :
                  (((fields (c0 :: c1 :: c2 :: c3 :: ' ' :: crest)).map
                      (remapStep 'T' 't')).map fun p => p.1) =
                  [c0, c1, c2, c3] ::
                    (((fields crest).map (remapStep 'T' 't')).map fun p => p.1) := by
                rw [hfields]
                simp only [List.map_cons, hstep0]
              rw [hmapsplit]
              apply lineToolBound_rebuilt _ [c0, c1, c2, c3]
                  (((fields crest).map (remapStep 'T' 't')).map fun p => p.1) com d rfl
              · intro m hm
                rcases List.mem_cons.1 hm with rfl | hm
                · exact ⟨by simp, hf0sf, hf0semi⟩
                · exact mapped_member_good 'T' 't' (Or.inl ⟨rfl, rfl⟩) crest hsemirest m hm
              · simp [asciiUpperStr, h0, h1, h2, h3]
              · left
                intro m hm v hc hA
                rcases List.mem_cons.1 hm with rfl | hm
                · rcases hc with ⟨hlen, hh | hh⟩
                  · simp only [List.headD_cons] at hh
                    rw [hh] at h0
                    exact absurd h0 (by decide)
                  · simp only [List.headD_cons] at hh
                    rw [hh] at h0
                    exact absurd h0 (by decide)
                · exact mapped_member_bound 'T' 't' crest m hm v hc hA
              · right
                exact ⟨by rcases hd with rfl | rfl <;> decide,
                       by rcases hd with rfl | rfl <;> decide⟩
              · exact hcomf
          · exact ihm l hl
        · rw [if_neg htemp] at h
          by_cases hfan : ((strToL "M106 ").isPrefixOf (asciiUpperStr code) = true ∨
              (strToL "M107 ").isPrefixOf (asciiUpperStr code) = true)
          · rw [if_pos hfan, Option.map_eq_some'] at h
            obtain ⟨r, hr, hout⟩ := h
            have ihm := transformGo_remap meta rest (i + 1) ct r hr
            subst hout
            intro l hl
            rcases List.mem_cons.1 hl with rfl | hl
            · obtain ⟨d, hd, hpref⟩ : ∃ d, (d = '6' ∨ d = '7') ∧
                  (['M', '1', '0', d, ' '] : List Char) <+: asciiUpperStr code := by
                rcases hfan with hph | hph
                · refine ⟨'6', Or.inl rfl, ?_⟩
                  have hp := List.isPrefixOf_iff_prefix.1 hph
                  rwa [show strToL "M106 " = (['M', '1', '0', '6', ' '] : List Char) from rfl]
                    at hp
                · refine ⟨'7', Or.inr rfl, ?_⟩
                  have hp := List.isPrefixOf_iff_prefix.1 hph
                  rwa [show strToL "M107 " = (['M', '1', '0', '7', ' '] : List Char) from rfl]
                    at hp
              have hcomf := splitCode_com_facts line
              simp only [hsp] at hcomf
              have hcodef := splitCode_code_facts line
              simp only [hsp] at hcodef
              have hremap_eq : remapParam line code com 'P' =
                  if (((fields code).map (remapStep 'P' 'p')).all fun p => !p.2) = true
                  then line
                  else joinSpace (((fields code).map (remapStep 'P' 'p')).map fun p => p.1) ++
                    (if com = [] then [] else ' ' :: com) := by
                unfold remapParam
                rw [show Char.ofNat ('P'.toNat + 32) = 'p' from by decide]
              rw [hremap_eq]
              by_cases hall : (((fields code).map (remapStep 'P' 'p')).all fun p => !p.2) = true
              · rw [if_pos hall]
                exact lineToolBound_unchanged line code com d hsp hpref
                  (Or.inr ⟨by rcases hd with rfl | rfl <;> decide,
                           by rcases hd with rfl | rfl <;> decide⟩)
                  (Or.inl (remap_all_bound 'P' 'p' code hall))
              · rw [if_neg hall]
                obtain ⟨c0, c1, c2, c3, crest, hcodeq, h0, h1, h2, h3⟩ :=
                  upper_m10_decomp code d hpref
                subst hcodeq
                have hsemi := hcodef.1
                have hf0sf : ∀ c ∈ ([c0, c1, c2, c3] : List Char), isSpace c = false := by
                  intro c hc
                  simp only [List.mem_cons, List.not_mem_nil, or_false] at hc
                  rcases hc with rfl | rfl | rfl | rfl
                  · exact isSpace_false_of_upper _ _ h0 (by decide)
                  · exact isSpace_false_of_upper _ _ h1 (by decide)
                  · exact isSpace_false_of_upper _ _ h2 (by decide)
                  · rcases hd with rfl | rfl
                    · exact isSpace_false_of_upper _ _ h3 (by decide)
                    · exact isSpace_false_of_upper _ _ h3 (by decide)
                have hf0semi : ∀ c ∈ ([c0, c1, c2, c3] : List Char), (c == ';') = false := by
                  intro c hc
                  apply hsemi
                  simp only [List.mem_cons, List.not_mem_nil, or_false] at hc
                  rcases hc with rfl | rfl | rfl | rfl <;> simp
                have hsemirest : ∀ x ∈ crest, (x == ';') = false := fun x hx =>
                  hsemi x (List.mem_cons_of_mem _ (List.mem_cons_of_mem _
                    (List.mem_cons_of_mem _ (List.mem_cons_of_mem _
                      (List.mem_cons_of_mem _ hx)))))
                have hfields : fields (c0 :: c1 :: c2 :: c3 :: ' ' :: crest) =
                    [c0, c1, c2, c3] :: fields crest := by
                  rw [show (c0 :: c1 :: c2 :: c3 :: ' ' :: crest : List Char) =
                        [c0, c1, c2, c3] ++ ' ' :: crest from rfl]
                  exact fields_append_space _ _ (by simp) hf0sf
                have hstep0 : remapStep 'P' 'p' [c0, c1, c2, c3] = ([c0, c1, c2, c3], false) :=
                  remapStep_head_M 'P' 'p' _ (Or.inr ⟨rfl, rfl⟩) (by simpa using h0)
                have hmapsplit :
                    (((fields (c0 :: c1 :: c2 :: c3 :: ' ' :: crest)).map
                        (remapStep 'P' 'p')).map fun p => p.1) =
                    [c0, c1, c2, c3] ::
                      (((fields crest).map (remapStep 'P' 'p')).map fun p => p.1) := by
                  rw [hfields]
                  simp only [List.map_cons, hstep0]
                rw [hmapsplit]
                apply lineToolBound_rebuilt _ [c0, c1, c2, c3]
                    (((fields crest).map (remapStep 'P' 'p')).map fun p => p.1) com d rfl
                · intro m hm
                  rcases List.mem_cons.1 hm with rfl | hm
                  · exact ⟨by simp, hf0sf, hf0semi⟩
                  · exact mapped_member_good 'P' 'p' (Or.inr ⟨rfl, rfl⟩) crest hsemirest m hm
                · simp [asciiUpperStr, h0, h1, h2, h3]
                · right
                  exact ⟨by rcases hd with rfl | rfl <;> decide,
                         by rcases hd with rfl | rfl <;> decide⟩
                · left
                  intro m hm v hc hA
                  rcases List.mem_cons.1 hm with rfl | hm
                  · rcases hc with ⟨hlen, hh | hh⟩
                    · simp only [List.headD_cons] at hh
                      rw [hh] at h0
                      exact absurd h0 (by decide)
                    · simp only [List.headD_cons] at hh
                      rw [hh] at h0
                      exact absurd h0 (by decide)
                  · exact mapped_member_bound 'P' 'p' crest m hm v hc hA
                · exact hcomf
            · exact ihm l hl
          · rw [if_neg hfan, Option.map_eq_some'] at h
            obtain ⟨r, hr, hout⟩ := h
            have ihm := transformGo_remap meta rest (i + 1) ct r hr
            subst hout
            intro l hl
            rcases List.mem_cons.1 hl with rfl | hl
            · exact lineToolBound_of_plain _ code com hsp htv
                (bool_eq_false fun hc => htemp (Or.inl hc))
                (bool_eq_false fun hc => htemp (Or.inr hc))
                (bool_eq_false fun hc => hfan (Or.inl hc))
                (bool_eq_false fun hc => hfan (Or.inr hc))
            · exact ihm l hl
      · simp only [htv] at h
        rcases hsh : (if Int.tmod ct 2 ≠ Int.tmod n 2 then
            match idx2? (Int.tmod ct 2) with
            | none => none
            | some p =>
              if 0 ≤ meta.lastToolLine p ∧ meta.lastToolLine p ≤ (i : Int) then
                some [shutoffLine p]
              else some []
          else some []) with _ | shutLines
        · simp only [hsh] at h
          exact absurd h (by simp)
        · simp only [hsh] at h
          rw [Option.map_eq_some'] at h
          obtain ⟨r, hr, hout⟩ := h
          have ihm := transformGo_remap meta rest (i + 1) n r hr
          have hshape : shutLines = [] ∨ shutLines = [shutoffLine 0] ∨
              shutLines = [shutoffLine 1] := by
            split at hsh
            · split at hsh
              · exact absurd hsh (by simp)
              · next p hp =>
                split at hsh
                · rcases idx2?_cases _ _ hp with rfl | rfl
                  · exact Or.inr (Or.inl (Option.some.inj hsh).symm)
                  · exact Or.inr (Or.inr (Option.some.inj hsh).symm)
                · exact Or.inl (Option.some.inj hsh).symm
            · exact Or.inl (Option.some.inj hsh).symm
          subst hout
          have hcomf := splitCode_com_facts line
          simp only [hsp] at hcomf
          intro l hl
          rcases List.mem_cons.1 hl with rfl | hl
          · by_cases hn : 1 < n
            · rw [if_pos hn]
              exact lineToolBound_toolLineOut (Int.tmod n 2) com (tmod_two_of_pos n hn) hcomf
            · rw [if_neg hn]
              exact lineToolBound_of_tool_small line code com n hsp htv (by omega)
          · rcases List.mem_append.1 hl with hl | hl
            · rcases hshape with rfl | rfl | rfl
              · exact absurd hl (by simp)
              · rw [show l = shutoffLine 0 from by simpa using hl]
                exact lineToolBound_shutoff 0 (Or.inl rfl)
              · rw [show l = shutoffLine 1 from by simpa using hl]
                exact lineToolBound_shutoff 1 (Or.inr rfl)
            · exact ihm l hl

/-- **C5.** Tool remap faithfulness, as provable from the code: when the
scanned maximum tool number is at most 1 the transform pass copies the
input lines in order, inserting at most shutoff commands (so the output
body does not always equal the input body); when it is at least 2 every
output line's tool-change value, `M104`/`M109` `T` parameters and
`M106`/`M107` `P` parameters are below 2. -/
theorem tool_remap_faithfulness (lines : List (List Char)) (meta : Metadata)
    (out : List (List Char)) (h : transformLines lines meta = some out) :
    (meta.maxToolNum ≤ 1 →
      lines.Sublist out ∧ ∀ l ∈ out, l ∈ lines ∨ l = shutoffLine 0 ∨ l = shutoffLine 1) ∧
    (2 ≤ meta.maxToolNum → ∀ l ∈ out, lineToolBound l = true) := by
  unfold transformLines at h
  constructor
  · intro hm
    rw [show decide (1 < meta.maxToolNum) = false from decide_eq_false (by omega)] at h
    exact transformGo_noremap meta lines 0 0 out h
  · intro hm
    rw [show decide (1 < meta.maxToolNum) = true from decide_eq_true (by omega)] at h
    exact transformGo_remap meta lines 0 0 out h

def c5lines : List (List Char) := [strToL "T0", strToL "T1"]

def c5meta : Metadata := (scanMetadata c5lines).getD initMeta

/-- **C5, counterexample to the claimed equality.** The two-line body
`T0` / `T1` scans to `maxToolNum = 1`, yet the transformed body gains a
shutoff line, so it does not equal the input body. -/
theorem tool_remap_counterexample :
    scanMetadata c5lines = some c5meta ∧ c5meta.maxToolNum ≤ 1 ∧
    transformLines c5lines c5meta = some (c5lines ++ [shutoffLine 0]) ∧
    c5lines ++ [shutoffLine 0] ≠ c5lines := by decide

def c5wlines : List (List Char) := [strToL "T2", strToL "M104 T3 S200"]

def c5wmeta : Metadata := (scanMetadata c5wlines).getD initMeta

def c5wout : List (List Char) := [strToL "T0", strToL "M104 T1 S200"]

/-- **C5, witness.** A concrete dual-extruder body: `T2` / `M104 T3 S200`
scans to `maxToolNum = 3`, transforms to `T0` / `M104 T1 S200`, and the
remapped heater line indeed carries only tool numbers below 2. -/
theorem tool_remap_faithfulness_witness :
    2 ≤ c5wmeta.maxToolNum ∧
    transformLines c5wlines c5wmeta = some c5wout ∧
    lineToolBound (strToL "M104 T1 S200") = true :=
  ⟨by decide, by decide,
    (tool_remap_faithfulness c5wlines c5wmeta c5wout (by decide)).2 (by decide) _ (by decide)⟩

end GCode
namespace Sacp

/-! ### G-code execution acknowledgement (`ExecuteGCode`) -/

/-- Modelled from the spec: how `ExecuteGCode` interprets the data field
of its response packet.  An empty data field is success with an empty
reply; a first data byte of 0, or of 15 (the acknowledgement motion
commands return), is success with the remaining bytes as the reply; any
other first byte `b` is the `gcode execution failed with result code b`
error. -/
def execGCodeResult (data : List Nat) : Except Nat (List Nat) :=
  match data with
  | [] => Except.ok []
  | b :: rest => if b = 0 ∨ b = 15 then Except.ok rest else Except.error b

/-- Modelled from the spec: the response dispatch of `ExecuteGCode` — a
packet is the response to the command-set `0x01`, command `0x02` request
exactly when its sequence and command pair match, and its data field is
then interpreted by `execGCodeResult`; any other packet is skipped. -/
def execGCodeResponse (p : Packet) (seq : Nat) : Option (Except Nat (List Nat)) :=
  if p.sequence = seq ∧ p.commandSet = 1 ∧ p.commandID = 2 then
    some (execGCodeResult p.data)
  else none

/-- **C7.** For a matching response packet to a `0x01`/`0x02` request: an
empty data field is success, a first data byte of 0 is success, a first
data byte of 15 is also success (motion commands), and any other non-zero
first byte is a failure; on success the remainder of the data is the
response string. -/
theorem exec_gcode_ack_interpretation (p : Packet) (seq : Nat)
    (hmatch : p.sequence = seq ∧ p.commandSet = 1 ∧ p.commandID = 2) :
    (p.data = [] → execGCodeResponse p seq = some (Except.ok [])) ∧
    (∀ rest, p.data = 0 :: rest → execGCodeResponse p seq = some (Except.ok rest)) ∧
    (∀ rest, p.data = 15 :: rest → execGCodeResponse p seq = some (Except.ok rest)) ∧
    (∀ b rest, p.data = b :: rest → b ≠ 0 → b ≠ 15 →
      execGCodeResponse p seq = some (Except.error b)) := by
  unfold execGCodeResponse
  rw [if_pos hmatch]
  refine ⟨?_, ?_, ?_, ?_⟩
  · intro hd
    rw [hd]
    rfl
  · intro rest hd
    rw [hd]
    rfl
  · intro rest hd
    rw [hd]
    rfl
  · intro b rest hd hb0 hb15
    rw [hd]
    show some (if b = 0 ∨ b = 15 then Except.ok rest else Except.error b) =
      some (Except.error b)
    rw [if_neg]
    rintro (rfl | rfl)
    · exact hb0 rfl
    · exact hb15 rfl

/-- **C7, witness.** A matching packet whose data starts with the motion
acknowledgement 15 is success, with the rest of the data as the reply. -/
theorem exec_gcode_ack_interpretation_witness :
    execGCodeResponse ⟨1, 0, 0, 9, 1, 2, [15, 79, 75]⟩ 9 = some (Except.ok [79, 75]) :=
  (exec_gcode_ack_interpretation ⟨1, 0, 0, 9, 1, 2, [15, 79, 75]⟩ 9
    ⟨rfl, rfl, rfl⟩).2.2.1 [79, 75] rfl

end Sacp

namespace Router

/-! ### PacketRouter shutdown (`router.go`)

An executable model of `PacketRouter`'s state: the `pending` map
(sequence number to response-channel id), the channel states, the `done`
channel, and the packets handed to the subscription handler.  `Stop()`
sets the stop flag and blocks on `done`; the read loop routes the reads
already in flight, observes the flag, and runs its deferred handlers —
the pending drain first, then the close of `done` (Go runs deferred
functions last-registered-first). -/

structure RPkt where
  sequence : Nat
  data : List Nat
deriving DecidableEq, Repr

inductive ChanVal
  | waiting
  | delivered (p : RPkt)
  | closed
deriving DecidableEq, Repr

inductive ReadRes
  | ok (p : RPkt)
  | timeout
  | fatal
deriving DecidableEq, Repr

structure RouterSt where
  pending : List (Nat × Nat)
  chans : List (Nat × ChanVal)
  doneClosed : Bool
  subs : List RPkt
deriving DecidableEq, Repr

def lookupPending : List (Nat × Nat) → Nat → Option Nat
  | [], _ => none
  | (k, c) :: rest, seq => if k = seq then some c else lookupPending rest seq

def removePending (pending : List (Nat × Nat)) (seq : Nat) : List (Nat × Nat) :=
  pending.filter fun e => !(e.1 == seq)

def lookupChan : List (Nat × ChanVal) → Nat → Option ChanVal
  | [], _ => none
  | (k, v) :: rest, cid => if k = cid then some v else lookupChan rest cid

/-- Sending on a waiter's buffered channel. -/
def setChan : List (Nat × ChanVal) → Nat → ChanVal → List (Nat × ChanVal)
  | [], _, _ => []
  | (k, w) :: rest, cid, v =>
    if k = cid then (k, v) :: setChan rest cid v else (k, w) :: setChan rest cid v

/-- The packet-dispatch step of `readLoop`: a packet whose sequence has a
pending waiter is delivered on that waiter's channel and the entry
removed; any other packet goes to the subscription handler. -/
def routePacket (st : RouterSt) (p : RPkt) : RouterSt :=
  match lookupPending st.pending p.sequence with
  | some c =>
    { st with pending := removePending st.pending p.sequence,
              chans := setChan st.chans c (ChanVal.delivered p) }
  | none => { st with subs := st.subs ++ [p] }

/-- The drain defer of `readLoop`: `close(ch)` for every channel the
pending map references, and the map emptied. -/
def drainChans (pending : List (Nat × Nat)) : List (Nat × ChanVal) → List (Nat × ChanVal)
  | [] => []
  | (k, w) :: rest =>
    (k, if pending.any fun q => q.2 == k then ChanVal.closed else w) ::
      drainChans pending rest

/-- The deferred exit path of `readLoop`: the drain defer runs first,
then the outermost defer closes `done`. -/
def exitLoop (st : RouterSt) : RouterSt :=
  { st with chans := drainChans st.pending st.chans, pending := [], doneClosed := true }

/-- The loop body after `Stop` sets the stop flag: the reads already in
flight (`script`) are still routed; a timeout re-checks the flag; a fatal
read error or the end of the script leaves the loop. -/
def processScript : RouterSt → List ReadRes → RouterSt
  | st, [] => st
  | st, ReadRes.timeout :: rest => processScript st rest
  | st, ReadRes.fatal :: _ => st
  | st, ReadRes.ok p :: rest => processScript (routePacket st p) rest

/-- `Stop()`: set the stop flag, let the read loop finish and run its
deferred handlers, return once `done` is closed. -/
def stopRouter (st : RouterSt) (script : List ReadRes) : RouterSt :=
  exitLoop (processScript st script)

inductive WaitOutcome
  | response (p : RPkt)
  | closedErr
deriving DecidableEq, Repr

/-- What a parked `WaitForResponse` sees on its channel: a delivered
packet is returned, a closed channel is the
`connection closed while waiting for response` error. -/
def waitOutcome (st : RouterSt) (cid : Nat) : Option WaitOutcome :=
  match lookupChan st.chans cid with
  | some (ChanVal.delivered p) => some (WaitOutcome.response p)
  | some ChanVal.closed => some WaitOutcome.closedErr
  | _ => none

theorem lookupChan_setChan_isSome :
    ∀ (chans : List (Nat × ChanVal)) (c x : Nat) (v : ChanVal),
      (lookupChan (setChan chans c v) x).isSome = (lookupChan chans x).isSome
  | [], _, _, _ => rfl
  | (k, w) :: rest, c, x, v => by
    unfold setChan
    by_cases hk : k = c
    · rw [if_pos hk]
      unfold lookupChan
      by_cases hx : k = x
      · rw [if_pos hx, if_pos hx]
        rfl
      · rw [if_neg hx, if_neg hx]
        exact lookupChan_setChan_isSome rest c x v
    · rw [if_neg hk]
      unfold lookupChan
      by_cases hx : k = x
      · rw [if_pos hx, if_pos hx]
      · rw [if_neg hx, if_neg hx]
        exact lookupChan_setChan_isSome rest c x v

theorem lookupChan_drain (pending : List (Nat × Nat)) :
    ∀ (chans : List (Nat × ChanVal)) (cid : Nat),
      (pending.any fun q => q.2 == cid) = true →
      (lookupChan chans cid).isSome = true →
      lookupChan (drainChans pending chans) cid = some ChanVal.closed
  | [], cid, _, hsome => by
    simp [lookupChan] at hsome
  | (k, w) :: rest, cid, hany, hsome => by
    unfold drainChans lookupChan
    by_cases hk : k = cid
    · subst hk
      rw [if_pos rfl, if_pos hany]
    · rw [if_neg hk]
      unfold lookupChan at hsome
      rw [if_neg hk] at hsome
      exact lookupChan_drain pending rest cid hany hsome

theorem processScript_wf :
    ∀ (script : List ReadRes) (st : RouterSt),
      (∀ e ∈ st.pending, (lookupChan st.chans e.2).isSome = true) →
      ∀ e ∈ (processScript st script).pending,
        (lookupChan (processScript st script).chans e.2).isSome = true
  | [], st, hwf => hwf
  | ReadRes.timeout :: rest, st, hwf => processScript_wf rest st hwf
  | ReadRes.fatal :: _, st, hwf => hwf
  | ReadRes.ok p :: rest, st, hwf => by
    apply processScript_wf rest
    unfold routePacket
    rcases hlp : lookupPending st.pending p.sequence with _ | c
    · exact hwf
    · intro e he
      rw [lookupChan_setChan_isSome]
      exact hwf e (List.mem_of_mem_filter he)

/-- **C8.** After `Stop()` on a running router, the exit path that closes
`done` (and so lets `Stop()` return) first drains every waiter still
pending: the pending map ends empty — no entry is leaked — and every such
waiter's channel is closed, so its `WaitForResponse` call completes with
the connection-closed error. -/
theorem router_stop_drains_waiters (st : RouterSt) (script : List ReadRes)
    (hwf : ∀ e ∈ st.pending, (lookupChan st.chans e.2).isSome = true) :
    (stopRouter st script).pending = [] ∧
    (stopRouter st script).doneClosed = true ∧
    ∀ e ∈ (processScript st script).pending,
      waitOutcome (stopRouter st script) e.2 = some WaitOutcome.closedErr := by
  refine ⟨rfl, rfl, ?_⟩
  intro e he
  have hex := processScript_wf script st hwf e he
  have hany : ((processScript st script).pending.any fun q => q.2 == e.2) = true :=
    List.any_eq_true.2 ⟨e, he, by simp⟩
  unfold stopRouter exitLoop waitOutcome
  rw [show lookupChan (drainChans (processScript st script).pending
        (processScript st script).chans) e.2 = some ChanVal.closed
      from lookupChan_drain _ _ _ hany hex]

def c8st : RouterSt where
  pending := [(7, 0)]
  chans := [(0, ChanVal.waiting)]
  doneClosed := false
  subs := []

/-- **C8, witness.** A router with one pending waiter (sequence 7 on
channel 0) whose read loop sees one timeout before observing the stop
flag: `Stop` leaves no pending entry, closes `done`, and the waiter gets
the connection-closed error. -/
theorem router_stop_drains_waiters_witness :
    (stopRouter c8st [ReadRes.timeout]).pending = [] ∧
    (stopRouter c8st [ReadRes.timeout]).doneClosed = true ∧
    waitOutcome (stopRouter c8st [ReadRes.timeout]) 0 = some WaitOutcome.closedErr := by
  have hmain := router_stop_drains_waiters c8st [ReadRes.timeout] (by decide)
  exact ⟨hmain.1, hmain.2.1, hmain.2.2 (7, 0) (by decide)⟩

end Router

namespace Poller

/-! ### State Poller upload gating -/

structure PollEffects where
  calledConnect : Bool
  snapConnected : Bool
deriving DecidableEq, Repr

/-- Modelled from the spec: one State Poller tick.  A connected client is
stamped connected.  Otherwise, while `IsUploading()` is set the tick
skips the ping/`Connect()` attempt and keeps broadcasting
`connected = true` with the last known state; else the poller pings the
printer and, when reachable, attempts `Connect()`, stamping
`snapshot.connected = false` when still unconnected afterwards. -/
def pollTick (connected uploading reachable connectOk : Bool) : PollEffects :=
  if connected then ⟨false, true⟩
  else if uploading then ⟨false, true⟩
  else if reachable then
    if connectOk then ⟨true, true⟩ else ⟨true, false⟩
  else ⟨false, false⟩

/-- **C9.** On every poller tick that happens while an upload is in
progress, the poller does not call `Connect()` and the published
snapshot's connected field stays true — whatever the connection,
reachability and connect-attempt outcomes. -/
theorem upload_gating (connected reachable connectOk : Bool) :
    (pollTick connected true reachable connectOk).calledConnect = false ∧
    (pollTick connected true reachable connectOk).snapConnected = true := by
  cases connected <;> exact ⟨rfl, rfl⟩

end Poller
